import Mathlib

/-!
# The FSM event queue of `src/common/fsm_types.hpp`

A shallow embedding of the tagged event record (`fsm::type_t`, `fsm::create_t`,
`fsm::destroy_t`, `fsm::change_t`, `fsm::variant_t`), of the single-level queue
(`fsm::Queue`) and of the two-level queue (`fsm::SmartQueue`); further down,
of the axis selection of `GcodeSuite::G28_no_parser` and of
`connect_client::PreviewRenderer::render`.

Bytes (`uint8_t`) are natural numbers; every place where the source narrows to
`uint8_t` is written `% 256`.
-/

namespace fsm

/-- The enumerator values of `ClientFSM_Command` and of `ClientFSM::_none`.
They are declared in `client_fsm_types.h`, which is not part of the sources, so
they are a parameter of every definition that uses them.
`ClientFSM_Command::none` is not a field: the `static_assert` of
`fsm_types.hpp` pins it to `0`. -/
structure client_fsm_types where
  /-- The value of `ClientFSM_Command::create`. -/
  create : Nat
  /-- The value of `ClientFSM_Command::destroy`. -/
  destroy : Nat
  /-- The value of `ClientFSM_Command::change`. -/
  change : Nat
  /-- The value of `ClientFSM_Command::_mask`. -/
  _mask : Nat
  /-- The value of `ClientFSM::_none`. -/
  _none : Nat
deriving DecidableEq, Repr

/-- The value of `ClientFSM_Command::none`
(`static_assert(int(ClientFSM_Command::none) == 0, ...)`). -/
def ClientFSM_Command_none : Nat := 0

/-- The layout of the tag byte: `_mask` is a byte and each of the three
commands uses only bits of `_mask`. -/
def client_fsm_types.MaskCovers (K : client_fsm_types) : Prop :=
  K._mask < 256 ∧
  K.create &&& K._mask = K.create ∧
  K.destroy &&& K._mask = K.destroy ∧
  K.change &&& K._mask = K.change

instance (K : client_fsm_types) : Decidable K.MaskCovers := by
  unfold client_fsm_types.MaskCovers
  infer_instance

/-- The four command kinds have four different values: the three commands
differ from `none`, which is `0`, and from each other. -/
def client_fsm_types.Distinct (K : client_fsm_types) : Prop :=
  K.create ≠ 0 ∧ K.destroy ≠ 0 ∧ K.change ≠ 0 ∧
  K.create ≠ K.destroy ∧ K.create ≠ K.change ∧ K.destroy ≠ K.change

instance (K : client_fsm_types) : Decidable K.Distinct := by
  unfold client_fsm_types.Distinct
  infer_instance

/-- What the tag byte requires of the header: the layout and four different
command values. -/
def client_fsm_types.WellFormed (K : client_fsm_types) : Prop :=
  K.MaskCovers ∧ K.Distinct

instance (K : client_fsm_types) : Decidable K.WellFormed := by
  unfold client_fsm_types.WellFormed
  infer_instance

/-- A dialog identity that fits the tag byte: a byte sharing no bit with
`ClientFSM_Command::_mask`. -/
def client_fsm_types.ValidType (K : client_fsm_types) (type : Nat) : Prop :=
  type < 256 ∧ type &&& K._mask = 0

instance (K : client_fsm_types) (type : Nat) : Decidable (K.ValidType type) := by
  unfold client_fsm_types.ValidType
  infer_instance

/-- The four command kinds `none`, `create`, `destroy`, `change`. -/
def client_fsm_types.IsCommand (K : client_fsm_types) (command : Nat) : Prop :=
  command = ClientFSM_Command_none ∨ command = K.create ∨
    command = K.destroy ∨ command = K.change

/-- `struct type_t`: one byte holding the command and the dialog identity. -/
structure type_t where
  /-- The packed byte. -/
  command_and_type : Nat
deriving DecidableEq, Repr

/-- `type_t::type_t(ClientFSM_Command command, ClientFSM type)`:
`command_and_type(uint8_t(type) | uint8_t(command))`. -/
def type_t.ctor (command type : Nat) : type_t :=
  ⟨((type % 256) ||| (command % 256)) % 256⟩

/-- `type_t::GetCommand`: `command_and_type & uint8_t(ClientFSM_Command::_mask)`. -/
def type_t.GetCommand (K : client_fsm_types) (t : type_t) : Nat :=
  (t.command_and_type &&& (K._mask % 256)) % 256

/-- `type_t::GetType`: `command_and_type & (~uint8_t(ClientFSM_Command::_mask))`.
The complement is taken on the promoted `int`; only its low eight bits meet
the bits of the byte `command_and_type`, and there it is `255 ^^^ mask`. -/
def type_t.GetType (K : client_fsm_types) (t : type_t) : Nat :=
  ((t.command_and_type % 256) &&& (255 ^^^ (K._mask % 256))) % 256

/-- `struct create_t`: the tag and one byte of initial state. -/
structure create_t where
  /-- The tag byte. -/
  type : type_t
  /-- The initial state. -/
  data : Nat
deriving DecidableEq, Repr

/-- `create_t::create_t(ClientFSM type_, uint8_t data)`. -/
def create_t.ctor (K : client_fsm_types) (type_ data : Nat) : create_t :=
  ⟨type_t.ctor K.create type_, data⟩

/-- `struct destroy_t`: the tag alone. -/
structure destroy_t where
  /-- The tag byte. -/
  type : type_t
deriving DecidableEq, Repr

/-- `destroy_t::destroy_t(ClientFSM type_)`. -/
def destroy_t.ctor (K : client_fsm_types) (type_ : Nat) : destroy_t :=
  ⟨type_t.ctor K.destroy type_⟩

/-- Modelled from the spec: `BaseData` of `fsm_base_types.hpp`, a header that
is not part of the sources. The spec calls it a fixed-size opaque payload
block of which the queue needs only the size, copying and equality. The
`static_assert`s of `fsm_types.hpp` make a slot `BaseDataSZ + 1` bytes and the
slot holds a packed `uint32_t` and `uint16_t`, so the block is taken to be five
bytes. -/
structure BaseData where
  /-- Byte 0 of the block; `create_t::data` overlays it in the union. -/
  b0 : Nat
  /-- Byte 1 of the block. -/
  b1 : Nat
  /-- Byte 2 of the block. -/
  b2 : Nat
  /-- Byte 3 of the block. -/
  b3 : Nat
  /-- Byte 4 of the block. -/
  b4 : Nat
deriving DecidableEq, Repr

/-- `struct change_t`: the tag and the payload block. -/
structure change_t where
  /-- The tag byte. -/
  type : type_t
  /-- The payload block. -/
  data : BaseData
deriving DecidableEq, Repr

/-- `change_t::change_t(ClientFSM type_, BaseData data)`. -/
def change_t.ctor (K : client_fsm_types) (type_ : Nat) (data : BaseData) : change_t :=
  ⟨type_t.ctor K.change type_, data⟩

/-- `union variant_t`: the six bytes of a slot. Byte 0 is the tag shared by the
three members, the other five are the payload block of `change`, the first of
which is also `create.data`. -/
structure variant_t where
  /-- Byte 0: `create.type`, `destroy.type` and `change.type`. -/
  type : type_t
  /-- Bytes 1 to 5: `change.data`. -/
  data : BaseData
deriving DecidableEq, Repr

/-- `variant_t::variant_t()`: `u32(0), u16(0)`, every byte zero. -/
def variant_t.ctor : variant_t :=
  ⟨⟨0⟩, ⟨0, 0, 0, 0, 0⟩⟩

/-- `variant_t::variant_t(create_t create_)`: the default constructor, then
`create = create_`. -/
def variant_t.of_create (create_ : create_t) : variant_t :=
  { variant_t.ctor with type := create_.type, data := { variant_t.ctor.data with b0 := create_.data } }

/-- `variant_t::variant_t(destroy_t destroy_)`: the default constructor, then
`destroy = destroy_`. -/
def variant_t.of_destroy (destroy_ : destroy_t) : variant_t :=
  { variant_t.ctor with type := destroy_.type }

/-- `variant_t::variant_t(change_t change)`: `change(change)`. -/
def variant_t.of_change (change : change_t) : variant_t :=
  ⟨change.type, change.data⟩

/-- The member `create` of the union. -/
def variant_t.create (v : variant_t) : create_t :=
  ⟨v.type, v.data.b0⟩

/-- The member `destroy` of the union. -/
def variant_t.destroy (v : variant_t) : destroy_t :=
  ⟨v.type⟩

/-- The member `change` of the union. -/
def variant_t.change (v : variant_t) : change_t :=
  ⟨v.type, v.data⟩

/-- `variant_t::GetCommand`: `create.type.GetCommand()`. -/
def variant_t.GetCommand (K : client_fsm_types) (v : variant_t) : Nat :=
  v.create.type.GetCommand K

/-- `variant_t::GetType`: `create.type.GetType()`. -/
def variant_t.GetType (K : client_fsm_types) (v : variant_t) : Nat :=
  v.create.type.GetType K

/-- `type_t::operator==`. -/
def type_t.eq (t other : type_t) : Bool :=
  decide (t.command_and_type = other.command_and_type)

/-- `create_t::operator==`. -/
def create_t.eq (c other : create_t) : Bool :=
  c.type.eq other.type && decide (c.data = other.data)

/-- `destroy_t::operator==`. -/
def destroy_t.eq (d other : destroy_t) : Bool :=
  d.type.eq other.type

/-- `change_t::operator==`. -/
def change_t.eq (c other : change_t) : Bool :=
  c.type.eq other.type && decide (c.data = other.data)

/-- `variant_t::operator==`. -/
def variant_t.eq (K : client_fsm_types) (v other : variant_t) : Bool :=
  if v.GetCommand K ≠ other.GetCommand K then false
  else if v.GetCommand K = K.create then v.create.eq other.create
  else if v.GetCommand K = K.destroy then v.destroy.eq other.destroy
  else if v.GetCommand K = K.change then v.change.eq other.change
  else false

/-- `variant_t::operator!=`. -/
def variant_t.ne (K : client_fsm_types) (v other : variant_t) : Bool :=
  !(v.eq K other)

/-- `std::array<T, 3>`. -/
structure array3 (α : Type) where
  /-- Element 0. -/
  a0 : α
  /-- Element 1. -/
  a1 : α
  /-- Element 2. -/
  a2 : α
deriving DecidableEq, Repr

/-- `operator[]` for reading; the queue reads below index 3 only, a larger
index yields the last element. -/
def array3.get {α : Type} (a : array3 α) (i : Nat) : α :=
  match i with
  | 0 => a.a0
  | 1 => a.a1
  | _ => a.a2

/-- `operator[]` for writing; an index of 3 or more has no element and stores
nothing. -/
def array3.set {α : Type} (a : array3 α) (i : Nat) (v : α) : array3 α :=
  match i with
  | 0 => { a with a0 := v }
  | 1 => { a with a1 := v }
  | 2 => { a with a2 := v }
  | _ => a

/-- The elements in index order. -/
def array3.toList {α : Type} (a : array3 α) : List α :=
  [a.a0, a.a1, a.a2]

/-- `enum class Queue::ret_val`. -/
inductive ret_val where
  | ok
  | er_type_none
  | er_already_created
  | er_already_destroyed
  | er_opened_fsm_inconsistent
deriving DecidableEq, Repr

/-- `class Queue`: three slots, the number of occupied slots and the identity
of the opened dialog. -/
structure Queue where
  /-- `std::array<variant_t, 3> queue`. -/
  queue : array3 variant_t
  /-- `uint8_t count`. -/
  count : Nat
  /-- `ClientFSM opened_fsm`. -/
  opened_fsm : Nat
deriving DecidableEq, Repr

/-- `Queue::Queue()`. -/
def Queue.ctor (K : client_fsm_types) : Queue :=
  ⟨⟨variant_t.ctor, variant_t.ctor, variant_t.ctor⟩, 0, K._none⟩

/-- `Queue::Clear`: `count = 0`. -/
def Queue.Clear (q : Queue) : Queue :=
  { q with count := 0 }

/-- `Queue::Clear_last`: `if (count) --count`. -/
def Queue.Clear_last (q : Queue) : Queue :=
  if q.count ≠ 0 then { q with count := q.count - 1 } else q

/-- `Queue::GetOpenFsm`. -/
def Queue.GetOpenFsm (q : Queue) : Nat :=
  q.opened_fsm

/-- `Queue::GetCount`. -/
def Queue.GetCount (q : Queue) : Nat :=
  q.count

/-- `Queue::GetCreateIndex`. -/
def Queue.GetCreateIndex (K : client_fsm_types) (q : Queue) : Int :=
  if q.count = 3 ∧ (q.queue.get 2).GetCommand K = K.create then 2
  else if q.count ≥ 2 ∧ (q.queue.get 1).GetCommand K = K.create then 1
  else if q.count ≥ 1 ∧ (q.queue.get 0).GetCommand K = K.create then 0
  else -1

/-- The pending records, oldest first: the first `count` slots. -/
def Queue.pending (q : Queue) : List variant_t :=
  q.queue.toList.take q.count

/-- Modelled from the spec: `Queue::Front` (declared in `fsm_types.hpp`, body
in the absent `fsm_types.cpp`). "Returns the oldest record, or the `None`-tagged
empty record if the buffer is empty. Non-destructive." -/
def Queue.Front (q : Queue) : variant_t :=
  if q.count = 0 then variant_t.ctor else q.queue.get 0

/-- Modelled from the spec: `Queue::Back` (body in the absent
`fsm_types.cpp`). "Returns the newest record, or empty if none.
Non-destructive." -/
def Queue.Back (q : Queue) : variant_t :=
  if q.count = 0 then variant_t.ctor else q.queue.get (q.count - 1)

/-- Modelled from the spec: `Queue::Pop` (body in the absent `fsm_types.cpp`).
"Removes the oldest record (consumer has applied it); returns whether a record
was removed." The remaining records move one slot towards the front. -/
def Queue.Pop (q : Queue) : Queue × Bool :=
  if q.count = 0 then (q, false)
  else ({ q with queue := ⟨q.queue.get 1, q.queue.get 2, q.queue.get 2⟩, count := q.count - 1 }, true)

/-- Modelled from the spec: the private `Queue::push` (body in the absent
`fsm_types.cpp`): the record goes to the back, that is into slot `count`, and
`count` grows by one. It checks nothing; the public operations decide whether
there is room. -/
def Queue.push (q : Queue) (v : variant_t) : Queue :=
  { q with queue := q.queue.set q.count v, count := q.count + 1 }

/-- Modelled from the spec: the private `Queue::pushCreate` (body in the absent
`fsm_types.cpp`): "inserts a `Create` record at the back". -/
def Queue.pushCreate (q : Queue) (create : create_t) : Queue × ret_val :=
  (q.push (variant_t.of_create create), ret_val.ok)

/-- Modelled from the spec: `Queue::PushCreate` (body in the absent
`fsm_types.cpp`). "If the identity argument is the `none` sentinel, fails with
`InvalidIdentity`"; "fails with `AlreadyCreated` if `opened_fsm == dialog`
already"; a level has one dialog open at a time, so a create while another
dialog is open is refused in the same way ("at most one `Create` record may
be pending", "a third concurrent dialog ... is rejected by the nested level's
own `AlreadyCreated` ... rules"); "otherwise inserts a `Create` record at the
back and sets `opened_fsm = dialog`". -/
def Queue.PushCreate (K : client_fsm_types) (q : Queue) (type data : Nat) : Queue × ret_val :=
  if type = K._none then (q, ret_val.er_type_none)
  else if q.opened_fsm = type then (q, ret_val.er_already_created)
  else if q.opened_fsm ≠ K._none then (q, ret_val.er_already_created)
  else
    let r := q.pushCreate (create_t.ctor K type data)
    ({ r.1 with opened_fsm := type }, r.2)

/-- Modelled from the spec: the private `Queue::pushDestroy` (body in the
absent `fsm_types.cpp`). "The operation collapses the buffer: every existing
record is discarded except that if the buffer's only pending record for this
identity was an un-dequeued `Create`, the `Create` and `Destroy` annihilate
each other (the dialog never became visible, so no event needs to be emitted)
...; otherwise the `Destroy` record is appended". The un-dequeued `Create` is
the one `GetCreateIndex` finds. When it is there, it and what was pushed
after it go and the `Destroy` is not stored; what was pushed before it stays,
as the class comment of `Queue` asks: destroy "erases all other events in
buffer ... (but nothing can erase destroy)". When the `Create` has been
dequeued, every record goes and the `Destroy` is appended. -/
def Queue.pushDestroy (K : client_fsm_types) (q : Queue) (destroy : destroy_t) : Queue × ret_val :=
  if 0 ≤ q.GetCreateIndex K ∧
      (q.queue.get (q.GetCreateIndex K).toNat).GetType K = destroy.type.GetType K then
    ({ q with count := (q.GetCreateIndex K).toNat }, ret_val.ok)
  else (q.Clear.push (variant_t.of_destroy destroy), ret_val.ok)

/-- Modelled from the spec: `Queue::PushDestroy` (body in the absent
`fsm_types.cpp`). `InvalidIdentity` for the `none` sentinel;
`AlreadyDestroyed` when no dialog is open ("nothing to destroy");
`Inconsistent` when "the level is open for a different dialog"; on success
the buffer collapses and `opened_fsm` is cleared. -/
def Queue.PushDestroy (K : client_fsm_types) (q : Queue) (type : Nat) : Queue × ret_val :=
  if type = K._none then (q, ret_val.er_type_none)
  else if q.opened_fsm = K._none then (q, ret_val.er_already_destroyed)
  else if q.opened_fsm ≠ type then (q, ret_val.er_opened_fsm_inconsistent)
  else
    let r := q.pushDestroy K (destroy_t.ctor K type)
    ({ r.1 with opened_fsm := K._none }, r.2)

/-- Modelled from the spec: the eviction of `PushChange` on a full buffer:
"evicting the oldest record if the buffer is full (capacity 3) ..., so
eviction preferentially drops the oldest `Change`". The oldest `Change`
record leaves, or the oldest record when no `Change` is pending, and the
younger records move one slot towards the front. -/
def Queue.evict (K : client_fsm_types) (q : Queue) : Queue :=
  if (q.queue.get 0).GetCommand K = K.change then
    { q with queue := ⟨q.queue.get 1, q.queue.get 2, q.queue.get 2⟩, count := 2 }
  else if (q.queue.get 1).GetCommand K = K.change then
    { q with queue := ⟨q.queue.get 0, q.queue.get 2, q.queue.get 2⟩, count := 2 }
  else if (q.queue.get 2).GetCommand K = K.change then
    { q with count := 2 }
  else
    { q with queue := ⟨q.queue.get 1, q.queue.get 2, q.queue.get 2⟩, count := 2 }

/-- Modelled from the spec: the private `Queue::pushChange` (body in the absent
`fsm_types.cpp`). "If the last record in the buffer is a `Change` for the same
dialog, it is overwritten in place with the new payload ...; otherwise a new
`Change` record is appended, evicting the oldest record if the buffer is full
(capacity 3)". A record is a `Change` for the same dialog when its tag byte
is the tag byte of the new record. -/
def Queue.pushChange (K : client_fsm_types) (q : Queue) (change : change_t) : Queue × ret_val :=
  if q.count ≠ 0 ∧ q.Back.type = change.type then
    ({ q with queue := q.queue.set (q.count - 1) (variant_t.of_change change) }, ret_val.ok)
  else if q.count < 3 then (q.push (variant_t.of_change change), ret_val.ok)
  else ((q.evict K).push (variant_t.of_change change), ret_val.ok)

/-- Modelled from the spec: `Queue::PushChange` (body in the absent
`fsm_types.cpp`). `InvalidIdentity` for the `none` sentinel; "fails with
`Inconsistent` if `opened_fsm != dialog`"; otherwise the record is merged or
appended. -/
def Queue.PushChange (K : client_fsm_types) (q : Queue) (type : Nat) (data : BaseData) : Queue × ret_val :=
  if type = K._none then (q, ret_val.er_type_none)
  else if q.opened_fsm ≠ type then (q, ret_val.er_opened_fsm_inconsistent)
  else q.pushChange K (change_t.ctor K type data)

/-- A call of one of the public operations that change a `Queue`. -/
inductive Queue.Call where
  | PushCreate (type data : Nat)
  | PushDestroy (type : Nat)
  | PushChange (type : Nat) (data : BaseData)
  | Pop
  | Clear
  | Clear_last
deriving DecidableEq, Repr

/-- The state after one call. -/
def Queue.call (K : client_fsm_types) (q : Queue) : Queue.Call → Queue
  | .PushCreate type data => (q.PushCreate K type data).1
  | .PushDestroy type => (q.PushDestroy K type).1
  | .PushChange type data => (q.PushChange K type data).1
  | .Pop => q.Pop.1
  | .Clear => q.Clear
  | .Clear_last => q.Clear_last

/-- The state after a sequence of calls, first call first. -/
def Queue.calls (K : client_fsm_types) (q : Queue) (cs : List Queue.Call) : Queue :=
  cs.foldl (Queue.call K) q

instance (K : client_fsm_types) (command : Nat) : Decidable (K.IsCommand command) := by
  unfold client_fsm_types.IsCommand
  infer_instance

/-- A header with the layout the tag byte needs, for evaluating the
definitions: the two top bits of the tag carry the command, `change` has
both, and the `none` dialog is `0`. -/
def client_fsm_types.two_top_bits : client_fsm_types :=
  { create := 0x80, destroy := 0x40, change := 0xC0, _mask := 0xC0, _none := 0 }

/-- `class SmartQueue`: the base queue, the next level queue and the number of
commands in the base queue when a create went to the next level. -/
structure SmartQueue where
  /-- `Queue queue0`, the base queue. -/
  queue0 : Queue
  /-- `Queue queue1`, the next level queue. -/
  queue1 : Queue
  /-- `size_t prior_commands_in_queue0`. -/
  prior_commands_in_queue0 : Nat
deriving DecidableEq, Repr

/-- `SmartQueue::SmartQueue()`: both queues default constructed,
`prior_commands_in_queue0(0)`. -/
def SmartQueue.ctor (K : client_fsm_types) : SmartQueue :=
  ⟨Queue.ctor K, Queue.ctor K, 0⟩

/-- `SmartQueue::clear`: `queue0.Clear(); queue1.Clear();`. -/
def SmartQueue.clear (s : SmartQueue) : SmartQueue :=
  { s with queue0 := s.queue0.Clear, queue1 := s.queue1.Clear }

/-- Modelled from the spec: `SmartQueue::PushCreate` (body in the absent
`fsm_types.cpp`). "If the base level has no open/pending dialog, route to
base; otherwise route to the nested level"; the counter is "how many records
already reside in the base level at the moment a nested `Create` arrives". -/
def SmartQueue.PushCreate (K : client_fsm_types) (s : SmartQueue) (type data : Nat) : SmartQueue :=
  if s.queue0.GetOpenFsm = K._none ∧ s.queue0.GetCreateIndex K = -1 then
    { s with queue0 := (s.queue0.PushCreate K type data).1 }
  else
    { s with queue1 := (s.queue1.PushCreate K type data).1,
             prior_commands_in_queue0 := s.queue0.GetCount }

/-- Modelled from the spec: `SmartQueue::PushDestroy` (body in the absent
`fsm_types.cpp`). "Routed to whichever level currently has that identity
open"; the nested level, the dialog on top, is asked first, and with the
identity open at neither level nothing changes. "Destroying the base-level
dialog while a nested dialog is open must also close/clear the nested level (a
child cannot outlive its parent)" and "destroying `A` while `B` is open clears
both levels": the nested dialog is destroyed too and `clear()` of the header
empties both levels. With no nested dialog open the base level keeps what its
`PushDestroy` left and the nested level is cleared ("apply `Clear` to the
nested level after the base `Destroy` succeeds"). -/
def SmartQueue.PushDestroy (K : client_fsm_types) (s : SmartQueue) (type : Nat) : SmartQueue :=
  if s.queue1.GetOpenFsm = type then
    { s with queue1 := (s.queue1.PushDestroy K type).1 }
  else if s.queue0.GetOpenFsm = type then
    let r := s.queue0.PushDestroy K type
    if r.2 ≠ ret_val.ok then s
    else if s.queue1.GetOpenFsm ≠ K._none then
      SmartQueue.clear
        { s with queue0 := r.1, queue1 := (s.queue1.PushDestroy K s.queue1.GetOpenFsm).1 }
    else { s with queue0 := r.1, queue1 := s.queue1.Clear }
  else s

/-- Modelled from the spec: `SmartQueue::PushChange` (body in the absent
`fsm_types.cpp`). "Routed to whichever level currently has that identity open;
fails with `Inconsistent` if neither level has it open." The nested level is
asked first; the function returns `void`, a failure changes nothing. -/
def SmartQueue.PushChange (K : client_fsm_types) (s : SmartQueue) (type : Nat) (data : BaseData) :
    SmartQueue :=
  if s.queue1.GetOpenFsm = type then
    { s with queue1 := (s.queue1.PushChange K type data).1 }
  else if s.queue0.GetOpenFsm = type then
    { s with queue0 := (s.queue0.PushChange K type data).1 }
  else s

/-- Modelled from the spec: which level `SmartQueue::Front` and
`SmartQueue::Pop` serve (bodies in the absent `fsm_types.cpp`). "Delivery
order favors the base level's pending `Create` over the nested level's any
record whenever `prior_commands_in_queue0` indicates the base `Create` was
queued before routing began ...; once the base level has no undelivered
`Create`, ordinary precedence is: drain base level to empty, then nested
level." `true` stands for the base level. -/
def SmartQueue.serves_base (K : client_fsm_types) (s : SmartQueue) : Bool :=
  if 0 ≤ s.queue0.GetCreateIndex K ∧ s.queue0.GetCreateIndex K < s.prior_commands_in_queue0 then true
  else decide (s.queue0.GetCount ≠ 0)

/-- Modelled from the spec: `SmartQueue::Front` (body in the absent
`fsm_types.cpp`): the oldest record of the level that is served. -/
def SmartQueue.Front (K : client_fsm_types) (s : SmartQueue) : variant_t :=
  if s.serves_base K then s.queue0.Front else s.queue1.Front

/-- Modelled from the spec: `SmartQueue::Pop` (body in the absent
`fsm_types.cpp`): removes the record `Front` returns. -/
def SmartQueue.Pop (K : client_fsm_types) (s : SmartQueue) : SmartQueue :=
  if s.serves_base K then { s with queue0 := s.queue0.Pop.1 }
  else { s with queue1 := s.queue1.Pop.1 }

/-- The `Change` records among the pending records, oldest first. -/
def Queue.pending_changes (K : client_fsm_types) (q : Queue) : List variant_t :=
  q.pending.filter (fun v => decide (v.GetCommand K = K.change))

/-- The member `u32` of the union: bytes 0 to 3 of the slot, least
significant first as on the little-endian target. -/
def variant_t.u32 (v : variant_t) : Nat :=
  v.type.command_and_type + 256 * v.data.b0 + 65536 * v.data.b1 + 16777216 * v.data.b2

/-- The member `u16` of the union: bytes 4 and 5 of the slot, least
significant first. -/
def variant_t.u16 (v : variant_t) : Nat :=
  v.data.b3 + 256 * v.data.b4

/-- `variant_t::variant_t(uint32_t u32, uint16_t u16)`: `u32(u32), u16(u16)`,
the six bytes given by the two integers. -/
def variant_t.of_u32_u16 (u32 u16 : Nat) : variant_t :=
  ⟨⟨u32 % 256⟩, ⟨u32 / 256 % 256, u32 / 65536 % 256, u32 / 16777216 % 256, u16 % 256, u16 / 256 % 256⟩⟩

/-- A header with the same tag layout whose `none` dialog is not `0` but the
enumerator that follows eight dialogs. -/
def client_fsm_types.none_after_dialogs : client_fsm_types :=
  { create := 0x80, destroy := 0x40, change := 0xC0, _mask := 0xC0, _none := 8 }

/-- The dialog identity a call names is valid. -/
def Queue.Call.Valid (K : client_fsm_types) : Queue.Call → Prop
  | .PushCreate type _ => K.ValidType type
  | .PushDestroy type => K.ValidType type
  | .PushChange type _ => K.ValidType type
  | .Pop => True
  | .Clear => True
  | .Clear_last => True

instance (K : client_fsm_types) (c : Queue.Call) : Decidable (c.Valid K) := by
  cases c <;> unfold Queue.Call.Valid <;> infer_instance

/-- The states a queue object takes: those the public operations, called with
valid dialog identities, lead to from the constructed state. -/
def Queue.Reachable (K : client_fsm_types) (q : Queue) : Prop :=
  ∃ cs : List Queue.Call, (∀ c ∈ cs, c.Valid K) ∧ q = (Queue.ctor K).calls K cs

/-- The contents a reachable buffer can have. With no dialog open: nothing, or
one `Destroy` record. With a dialog open: at most a `Destroy` record of an
earlier dialog, then the `Create` record of the open dialog, then one `Change`
record of the open dialog, in this order. With `fifo` set, the `Create`
stands after a pending `Destroy`: no record left the buffer at the back. -/
def Queue.Shape (K : client_fsm_types) (fifo : Bool) (q : Queue) : Prop :=
  (q.opened_fsm = K._none ∧
    (q.count = 0 ∨ (q.count = 1 ∧ (q.queue.get 0).GetCommand K = K.destroy))) ∨
  (q.opened_fsm ≠ K._none ∧ K.ValidType q.opened_fsm ∧
    (q.count = 0 ∨
      (q.count = 1 ∧
        ((fifo = false ∧ (q.queue.get 0).GetCommand K = K.destroy) ∨
          (q.queue.get 0).type = type_t.ctor K.create q.opened_fsm ∨
          (q.queue.get 0).type = type_t.ctor K.change q.opened_fsm)) ∨
      (q.count = 2 ∧
        (((q.queue.get 0).GetCommand K = K.destroy ∧
            (q.queue.get 1).type = type_t.ctor K.create q.opened_fsm) ∨
          (fifo = false ∧ (q.queue.get 0).GetCommand K = K.destroy ∧
            (q.queue.get 1).type = type_t.ctor K.change q.opened_fsm) ∨
          ((q.queue.get 0).type = type_t.ctor K.create q.opened_fsm ∧
            (q.queue.get 1).type = type_t.ctor K.change q.opened_fsm))) ∨
      (q.count = 3 ∧ (q.queue.get 0).GetCommand K = K.destroy ∧
        (q.queue.get 1).type = type_t.ctor K.create q.opened_fsm ∧
        (q.queue.get 2).type = type_t.ctor K.change q.opened_fsm)))

end fsm

/-!
# The axis selection of `G28` (`Marlin/src/gcode/calibrate/G28.cpp`)
-/

namespace GcodeSuite

/-- The constants `doX`, `doY`, `doZ` of `GcodeSuite::G28_no_parser`: the axes
the call homes. -/
structure G28_axes where
  /-- `doX`: home the X axis. -/
  doX : Bool
  /-- `doY`: home the Y axis. -/
  doY : Bool
  /-- `doZ`: home the Z axis. -/
  doZ : Bool
deriving DecidableEq, Repr

/-- The axis selection of `GcodeSuite::G28_no_parser` in the build without
`DELTA` (`#else // NOT DELTA`):
`homeX = X, homeY = Y, homeZ = Z`,
`home_all = always_home_all || (homeX == homeY && homeX == homeZ)`,
`doX = home_all || homeX, doY = home_all || homeY, doZ = home_all || homeZ`.
The parameters `O`, `R` and `S` do not enter these constants. -/
def G28_no_parser_axes (always_home_all X Y Z : Bool) : G28_axes :=
  let homeX := X
  let homeY := Y
  let homeZ := Z
  let home_all := always_home_all || (homeX == homeY && homeX == homeZ)
  { doX := home_all || homeX, doY := home_all || homeY, doZ := home_all || homeZ }

end GcodeSuite

/-!
# The preview renderer (`src/connect/render.cpp`)
-/

namespace connect_client

/-- The enumerators of `json::JsonResult` that `render.cpp` names; the enum is
declared in a header that is not part of the sources. -/
inductive JsonResult where
  | Complete
  | Incomplete
  | BufferTooSmall
  | Abort
deriving DecidableEq, Repr

/-- The number of values of `size_t` on the 32-bit target. -/
def size_t_values : Nat := 2 ^ 32

/-- Addition of two `size_t`, which wraps around. -/
def size_t_add (a b : Nat) : Nat :=
  (a + b) % size_t_values

/-- Subtraction of two `size_t`, which wraps around. -/
def size_t_sub (a b : Nat) : Nat :=
  (a % size_t_values + size_t_values - b % size_t_values) % size_t_values

/-- The bytes of the C string `intro`: a quote, the word `preview`, a quote,
a colon and a quote. -/
def intro : List Nat :=
  [34, 112, 114, 101, 118, 105, 101, 119, 34, 58, 34]

/-- The bytes of `outro`: the ending quote and a comma. -/
def outro : List Nat :=
  [34, 44]

/-- `intro_len = strlen(intro)`. -/
def intro_len : Nat := intro.length

/-- `outro_len = strlen(outro)`. -/
def outro_len : Nat := outro.length

/-- `min_len = intro_len + outro_len + 1`. -/
def min_len : Nat := intro_len + outro_len + 1

/-- `class PreviewRenderer`, as far as `render` reads and writes it: the flag
`started`. The member `decoder` belongs to a class that is not part of the
sources; what its `Read` returns is a parameter of `render`. -/
structure PreviewRenderer where
  /-- `bool started`. -/
  started : Bool
deriving DecidableEq, Repr

/-- `PreviewRenderer::render(uint8_t *buffer, size_t buffer_size)`, the
counters and the flag; the bytes copied into `buffer` are not modelled.
`Read n` is the count `decoder.Read(buffer, n)` returns. The result is the
returned tuple and the renderer after the call. -/
def PreviewRenderer.render (Read : Nat → Nat) (self : PreviewRenderer) (buffer_size : Nat) :
    (JsonResult × Nat) × PreviewRenderer :=
  if buffer_size < min_len then
    ((JsonResult.BufferTooSmall, 0), self)
  else
    let written := 0
    let written := if !self.started then size_t_add written intro_len else written
    let buffer_size := if !self.started then size_t_sub buffer_size intro_len else buffer_size
    let available := size_t_sub buffer_size outro_len
    let decoded := Read available
    if decoded = 0 ∧ !self.started then
      ((JsonResult.Complete, 0), self)
    else
      let written := size_t_add written decoded
      if decoded < available then
        ((JsonResult.Complete, size_t_add written outro_len), { self with started := true })
      else
        ((JsonResult.Incomplete, written), { self with started := true })

end connect_client

/-! ## Theorems -/

namespace fsm

/-- A command inside the mask is a byte. -/
theorem command_lt_of_and_mask {c m : Nat} (hm : m < 256) (hc : c &&& m = c) : c < 256 := by
  have h := @Nat.and_le_right c m
  omega

/-- The tag byte of a valid pair, with the narrowing conversions resolved. -/
theorem type_t_ctor_byte {c d : Nat} (hc : c < 256) (hd : d < 256) :
    (type_t.ctor c d).command_and_type = d ||| c := by
  have h : d ||| c < 2 ^ 8 := Nat.or_lt_two_pow (by simpa using hd) (by simpa using hc)
  simp only [type_t.ctor, Nat.mod_eq_of_lt hc, Nat.mod_eq_of_lt hd]
  exact Nat.mod_eq_of_lt (by simpa using h)

/-- Masking the tag byte of a valid pair gives the command back. -/
theorem type_t_GetCommand_ctor (K : client_fsm_types) {c d : Nat} (hm : K._mask < 256)
    (hc : c &&& K._mask = c) (hd : K.ValidType d) :
    (type_t.ctor c d).GetCommand K = c := by
  have hc256 := command_lt_of_and_mask hm hc
  have hb : (d ||| c) &&& K._mask = c := by
    apply Nat.eq_of_testBit_eq
    intro i
    have h1 := congrArg (fun n => Nat.testBit n i) hc
    have h2 := congrArg (fun n => Nat.testBit n i) hd.2
    simp only [Nat.testBit_and, Nat.zero_testBit] at h1 h2
    simp only [Nat.testBit_and, Nat.testBit_or]
    cases hdi : d.testBit i <;> cases hci : c.testBit i <;> cases hmi : K._mask.testBit i <;> simp_all
  simp only [type_t.GetCommand, type_t_ctor_byte hc256 hd.1, Nat.mod_eq_of_lt hm, hb]
  exact Nat.mod_eq_of_lt hc256

/-- Clearing the mask bits of the tag byte of a valid pair gives the dialog
identity back. -/
theorem type_t_GetType_ctor (K : client_fsm_types) {c d : Nat} (hm : K._mask < 256)
    (hc : c &&& K._mask = c) (hd : K.ValidType d) :
    (type_t.ctor c d).GetType K = d := by
  have hc256 := command_lt_of_and_mask hm hc
  have hdc : d ||| c < 256 := by
    have h : d ||| c < 2 ^ 8 := Nat.or_lt_two_pow (by simpa using hd.1) (by simpa using hc256)
    simpa using h
  have hb : (d ||| c) &&& (255 ^^^ K._mask) = d := by
    apply Nat.eq_of_testBit_eq
    intro i
    have h1 := congrArg (fun n => Nat.testBit n i) hc
    have h2 := congrArg (fun n => Nat.testBit n i) hd.2
    have h255 : Nat.testBit 255 i = decide (i < 8) := by
      have := @Nat.testBit_two_pow_sub_one 8 i
      simpa using this
    have hhi : 8 ≤ i → d.testBit i = false := fun h8 =>
      Nat.testBit_lt_two_pow (lt_of_lt_of_le (by simpa using hd.1) (Nat.pow_le_pow_right (by decide) h8))
    simp only [Nat.testBit_and, Nat.zero_testBit] at h1 h2
    simp only [Nat.testBit_and, Nat.testBit_or, Nat.testBit_xor, h255]
    by_cases h8 : i < 8
    · cases hdi : d.testBit i <;> cases hci : c.testBit i <;> cases hmi : K._mask.testBit i <;>
        simp_all
    · have h8i : 8 ≤ i := by omega
      have hd0 := hhi h8i
      have hc0 : c.testBit i = false :=
        Nat.testBit_lt_two_pow
          (lt_of_lt_of_le (by simpa using hc256) (Nat.pow_le_pow_right (by decide) h8i))
      simp_all
  simp only [type_t.GetType, type_t_ctor_byte hc256 hd.1, Nat.mod_eq_of_lt hm,
    Nat.mod_eq_of_lt hdc, hb]
  exact Nat.mod_eq_of_lt hd.1

/-- Every command kind uses only bits of the mask. -/
theorem IsCommand_and_mask (K : client_fsm_types) (hK : K.MaskCovers) {c : Nat}
    (hc : K.IsCommand c) : c &&& K._mask = c := by
  obtain ⟨_, h1, h2, h3⟩ := hK
  rcases hc with h | h | h | h <;> subst h
  · simp [ClientFSM_Command_none]
  · exact h1
  · exact h2
  · exact h3

/-- C10. For every header whose mask covers the commands, every command kind
`c` among none, create, destroy and change and every valid dialog identity `d`
(a byte sharing no bit with `_mask`), the tag `type_t(c, d)` decodes to the same
pair: `GetCommand() = c` and `GetType() = d`. -/
theorem type_t_roundtrip (K : client_fsm_types) (hK : K.MaskCovers) (command type : Nat)
    (hc : K.IsCommand command) (ht : K.ValidType type) :
    (type_t.ctor command type).GetCommand K = command ∧
      (type_t.ctor command type).GetType K = type :=
  ⟨type_t_GetCommand_ctor K hK.1 (IsCommand_and_mask K hK hc) ht,
    type_t_GetType_ctor K hK.1 (IsCommand_and_mask K hK hc) ht⟩

/-- The two-top-bits header is well formed. -/
theorem two_top_bits_WellFormed : client_fsm_types.two_top_bits.WellFormed := by
  decide

/-- C10 at the two-top-bits header: `type_t(create, 5)` decodes to
`(create, 5)`. -/
theorem type_t_roundtrip_witness :
    client_fsm_types.two_top_bits.MaskCovers ∧
      client_fsm_types.two_top_bits.IsCommand 0x80 ∧
      client_fsm_types.two_top_bits.ValidType 5 ∧
      (type_t.ctor 0x80 5).GetCommand client_fsm_types.two_top_bits = 0x80 ∧
      (type_t.ctor 0x80 5).GetType client_fsm_types.two_top_bits = 5 :=
  ⟨by decide, by decide, by decide,
    type_t_roundtrip client_fsm_types.two_top_bits (by decide) 0x80 5 (by decide) (by decide)⟩

/-- The command of a `Create` record of a valid dialog. -/
theorem variant_t.GetCommand_of_create (K : client_fsm_types) (hK : K.MaskCovers) {D : Nat}
    (hD : K.ValidType D) (x : Nat) :
    (variant_t.of_create (create_t.ctor K D x)).GetCommand K = K.create :=
  type_t_GetCommand_ctor K hK.1 hK.2.1 hD

/-- The dialog of a `Create` record of a valid dialog. -/
theorem variant_t.GetType_of_create (K : client_fsm_types) (hK : K.MaskCovers) {D : Nat}
    (hD : K.ValidType D) (x : Nat) :
    (variant_t.of_create (create_t.ctor K D x)).GetType K = D :=
  type_t_GetType_ctor K hK.1 hK.2.1 hD

/-- The command of a `Destroy` record of a valid dialog. -/
theorem variant_t.GetCommand_of_destroy (K : client_fsm_types) (hK : K.MaskCovers) {D : Nat}
    (hD : K.ValidType D) :
    (variant_t.of_destroy (destroy_t.ctor K D)).GetCommand K = K.destroy :=
  type_t_GetCommand_ctor K hK.1 hK.2.2.1 hD

/-- The dialog a `destroy_t` of a valid dialog names. -/
theorem destroy_t.GetType_ctor (K : client_fsm_types) (hK : K.MaskCovers) {D : Nat}
    (hD : K.ValidType D) : (destroy_t.ctor K D).type.GetType K = D :=
  type_t_GetType_ctor K hK.1 hK.2.2.1 hD

/-- The command of a `Change` record of a valid dialog. -/
theorem variant_t.GetCommand_of_change (K : client_fsm_types) (hK : K.MaskCovers) {D : Nat}
    (hD : K.ValidType D) (p : BaseData) :
    (variant_t.of_change (change_t.ctor K D p)).GetCommand K = K.change :=
  type_t_GetCommand_ctor K hK.1 hK.2.2.2 hD

/-- The eviction leaves two records and the opened identity. -/
theorem Queue.evict_count (K : client_fsm_types) (q : Queue) :
    (q.evict K).count = 2 ∧ (q.evict K).opened_fsm = q.opened_fsm := by
  unfold Queue.evict
  split_ifs <;> exact ⟨rfl, rfl⟩

/-- `GetCreateIndex` is at most 2. -/
theorem Queue.GetCreateIndex_le_two (K : client_fsm_types) (q : Queue) :
    (q.GetCreateIndex K).toNat ≤ 2 := by
  unfold Queue.GetCreateIndex
  split_ifs <;> decide

/-- `PushCreate` keeps the bound: three records at most, two at most while no
dialog is open. -/
theorem Queue.PushCreate_bound (K : client_fsm_types) (q : Queue) (type data : Nat)
    (h : q.count ≤ 3 ∧ (q.opened_fsm = K._none → q.count ≤ 2)) :
    (q.PushCreate K type data).1.count ≤ 3 ∧
      ((q.PushCreate K type data).1.opened_fsm = K._none →
        (q.PushCreate K type data).1.count ≤ 2) := by
  unfold Queue.PushCreate Queue.pushCreate Queue.push
  split_ifs with h1 h2 h3
  · exact h
  · exact h
  · exact h
  · have hc := h.2 (not_not.mp h3)
    refine ⟨by simp only; omega, fun hn => absurd hn h1⟩

/-- `PushDestroy` keeps the bound. -/
theorem Queue.PushDestroy_bound (K : client_fsm_types) (q : Queue) (type : Nat)
    (h : q.count ≤ 3 ∧ (q.opened_fsm = K._none → q.count ≤ 2)) :
    (q.PushDestroy K type).1.count ≤ 3 ∧
      ((q.PushDestroy K type).1.opened_fsm = K._none → (q.PushDestroy K type).1.count ≤ 2) := by
  unfold Queue.PushDestroy Queue.pushDestroy
  split_ifs with h1 h2 h3 h4
  · exact h
  · exact h
  · exact h
  · have := Queue.GetCreateIndex_le_two K q
    refine ⟨by simp only; omega, fun _ => by simp only; omega⟩
  · refine ⟨by simp [Queue.push, Queue.Clear], fun _ => by simp [Queue.push, Queue.Clear]⟩

/-- `PushChange` keeps the bound. -/
theorem Queue.PushChange_bound (K : client_fsm_types) (q : Queue) (type : Nat) (data : BaseData)
    (h : q.count ≤ 3 ∧ (q.opened_fsm = K._none → q.count ≤ 2)) :
    (q.PushChange K type data).1.count ≤ 3 ∧
      ((q.PushChange K type data).1.opened_fsm = K._none →
        (q.PushChange K type data).1.count ≤ 2) := by
  unfold Queue.PushChange Queue.pushChange
  split_ifs with h1 h2 h3 h4
  · exact h
  · exact h
  · have ho : q.opened_fsm ≠ K._none := by
      rw [not_not.mp h2]; exact h1
    exact ⟨h.1, fun hn => absurd hn ho⟩
  · have ho : q.opened_fsm ≠ K._none := by
      rw [not_not.mp h2]; exact h1
    exact ⟨by simp only [Queue.push]; omega, fun hn => absurd hn ho⟩
  · have ho : q.opened_fsm ≠ K._none := by
      rw [not_not.mp h2]; exact h1
    obtain ⟨hc, hopen⟩ := Queue.evict_count K q
    refine ⟨by simp only [Queue.push, hc]; omega, fun hn => ?_⟩
    simp only [Queue.push, hopen] at hn
    exact absurd hn ho

/-- Every public operation keeps the bound. -/
theorem Queue.call_bound (K : client_fsm_types) (q : Queue) (c : Queue.Call)
    (h : q.count ≤ 3 ∧ (q.opened_fsm = K._none → q.count ≤ 2)) :
    (q.call K c).count ≤ 3 ∧ ((q.call K c).opened_fsm = K._none → (q.call K c).count ≤ 2) := by
  cases c with
  | PushCreate type data => exact Queue.PushCreate_bound K q type data h
  | PushDestroy type => exact Queue.PushDestroy_bound K q type h
  | PushChange type data => exact Queue.PushChange_bound K q type data h
  | Pop =>
    simp only [Queue.call, Queue.Pop]
    split_ifs
    · exact h
    · exact ⟨by simp only; omega, fun hn => by have := h.2 hn; simp only; omega⟩
  | Clear => simp [Queue.call, Queue.Clear]
  | Clear_last =>
    simp only [Queue.call, Queue.Clear_last]
    split_ifs
    · exact ⟨by simp only; omega, fun hn => by have := h.2 hn; simp only; omega⟩
    · exact h

/-- A sequence of calls keeps the bound. -/
theorem Queue.calls_bound (K : client_fsm_types) (cs : List Queue.Call) (q : Queue)
    (h : q.count ≤ 3 ∧ (q.opened_fsm = K._none → q.count ≤ 2)) :
    (q.calls K cs).count ≤ 3 ∧ ((q.calls K cs).opened_fsm = K._none → (q.calls K cs).count ≤ 2) := by
  induction cs generalizing q with
  | nil => simpa [Queue.calls] using h
  | cons c cs ih =>
    simp only [Queue.calls, List.foldl_cons]
    exact ih (q.call K c) (Queue.call_bound K q c h)

/-- C1. For every sequence of `PushCreate`, `PushDestroy`, `PushChange`, `Pop`,
`Clear` and `Clear_last` calls on a queue starting from the constructed state,
`GetCount()` is at most 3 after the sequence; every prefix of a sequence is a
sequence, so the bound holds after every call. -/
theorem Queue_GetCount_le_three (K : client_fsm_types) (cs : List Queue.Call) :
    ((Queue.ctor K).calls K cs).GetCount ≤ 3 :=
  (Queue.calls_bound K cs (Queue.ctor K) (by simp [Queue.ctor])).1

/-- C5. For every queue state whose opened identity is `D1` (not none) and
every dialog `D2` different from `D1` and from none, `PushChange(D2, p)` and
`PushDestroy(D2)` each return `er_opened_fsm_inconsistent` and leave the slots,
the count and the opened identity unchanged. -/
theorem Queue_push_other_identity_inconsistent (K : client_fsm_types) (q : Queue)
    (D1 D2 : Nat) (p : BaseData) (hopen : q.GetOpenFsm = D1) (hD1 : D1 ≠ K._none)
    (hD2 : D2 ≠ D1) (hD2n : D2 ≠ K._none) :
    q.PushChange K D2 p = (q, ret_val.er_opened_fsm_inconsistent) ∧
      q.PushDestroy K D2 = (q, ret_val.er_opened_fsm_inconsistent) := by
  simp only [Queue.GetOpenFsm] at hopen
  constructor
  · simp [Queue.PushChange, hD2n, hopen, Ne.symm hD2]
  · simp [Queue.PushDestroy, hD2n, hopen, hD1, Ne.symm hD2]

/-- C5 at the two-top-bits header: with dialog 1 open, a change and a destroy
for dialog 2 are refused and the state stays. -/
theorem Queue_push_other_identity_inconsistent_witness :
    ((Queue.ctor client_fsm_types.two_top_bits).PushCreate client_fsm_types.two_top_bits 1 0).1.PushChange
        client_fsm_types.two_top_bits 2 ⟨9, 0, 0, 0, 0⟩ =
      (((Queue.ctor client_fsm_types.two_top_bits).PushCreate client_fsm_types.two_top_bits 1 0).1,
        ret_val.er_opened_fsm_inconsistent) ∧
    ((Queue.ctor client_fsm_types.two_top_bits).PushCreate client_fsm_types.two_top_bits 1 0).1.PushDestroy
        client_fsm_types.two_top_bits 2 =
      (((Queue.ctor client_fsm_types.two_top_bits).PushCreate client_fsm_types.two_top_bits 1 0).1,
        ret_val.er_opened_fsm_inconsistent) :=
  Queue_push_other_identity_inconsistent client_fsm_types.two_top_bits
    ((Queue.ctor client_fsm_types.two_top_bits).PushCreate client_fsm_types.two_top_bits 1 0).1
    1 2 ⟨9, 0, 0, 0, 0⟩ (by decide) (by decide) (by decide) (by decide)

/-- C6. For every queue state whose opened identity is `D` (not none) and
every byte `x`, `PushCreate(D, x)` returns `er_already_created` and leaves the
slots, the count and the opened identity unchanged. -/
theorem Queue_PushCreate_opened_already_created (K : client_fsm_types) (q : Queue)
    (D x : Nat) (hopen : q.GetOpenFsm = D) (hD : D ≠ K._none) :
    q.PushCreate K D x = (q, ret_val.er_already_created) := by
  simp only [Queue.GetOpenFsm] at hopen
  simp [Queue.PushCreate, hD, hopen]

/-- C6 at the two-top-bits header: a second create for the open dialog 1 is
refused and the state stays. -/
theorem Queue_PushCreate_opened_already_created_witness :
    ((Queue.ctor client_fsm_types.two_top_bits).PushCreate client_fsm_types.two_top_bits 1 0).1.PushCreate
        client_fsm_types.two_top_bits 1 5 =
      (((Queue.ctor client_fsm_types.two_top_bits).PushCreate client_fsm_types.two_top_bits 1 0).1,
        ret_val.er_already_created) :=
  Queue_PushCreate_opened_already_created client_fsm_types.two_top_bits
    ((Queue.ctor client_fsm_types.two_top_bits).PushCreate client_fsm_types.two_top_bits 1 0).1
    1 5 (by decide) (by decide)

/-- C2. For every dialog `D` other than none and every byte `x`, on an empty
queue with no dialog open, `PushCreate(D, x)` followed by `PushDestroy(D)` with
no `Pop` in between both return `ok` and leave the queue empty: `GetCount()`
is 0 and `Front()` is the None record. -/
theorem Queue_create_destroy_annihilate (K : client_fsm_types) (hK : K.MaskCovers) (q : Queue)
    (D x : Nat) (hD : K.ValidType D) (hDn : D ≠ K._none) (hempty : q.GetCount = 0)
    (hclosed : q.GetOpenFsm = K._none) :
    (q.PushCreate K D x).2 = ret_val.ok ∧
      ((q.PushCreate K D x).1.PushDestroy K D).2 = ret_val.ok ∧
      ((q.PushCreate K D x).1.PushDestroy K D).1.GetCount = 0 ∧
      ((q.PushCreate K D x).1.PushDestroy K D).1.Front = variant_t.ctor := by
  obtain ⟨⟨a0, a1, a2⟩, n, o⟩ := q
  simp only [Queue.GetCount, Queue.GetOpenFsm] at hempty hclosed
  subst hempty hclosed
  have hne : ¬ K._none = D := fun h => hDn h.symm
  have hc : Queue.PushCreate K ⟨⟨a0, a1, a2⟩, 0, K._none⟩ D x =
      (⟨⟨variant_t.of_create (create_t.ctor K D x), a1, a2⟩, 1, D⟩, ret_val.ok) := by
    simp [Queue.PushCreate, Queue.pushCreate, Queue.push, array3.set, hDn, hne]
  have hidx : Queue.GetCreateIndex K
      ⟨⟨variant_t.of_create (create_t.ctor K D x), a1, a2⟩, 1, D⟩ = 0 := by
    simp [Queue.GetCreateIndex, array3.get, variant_t.GetCommand_of_create K hK hD]
  rw [hc]
  simp [Queue.PushDestroy, Queue.pushDestroy, hDn, hidx, array3.get,
    destroy_t.GetType_ctor K hK hD, variant_t.GetType_of_create K hK hD, Queue.GetCount,
    Queue.Front]

/-- C2 at the two-top-bits header: on the constructed queue, create then
destroy of dialog 1 leave nothing pending. -/
theorem Queue_create_destroy_annihilate_witness :
    ((Queue.ctor client_fsm_types.two_top_bits).PushCreate client_fsm_types.two_top_bits 1 7).2 =
        ret_val.ok ∧
      (((Queue.ctor client_fsm_types.two_top_bits).PushCreate client_fsm_types.two_top_bits 1 7).1.PushDestroy
        client_fsm_types.two_top_bits 1).2 = ret_val.ok ∧
      (((Queue.ctor client_fsm_types.two_top_bits).PushCreate client_fsm_types.two_top_bits 1 7).1.PushDestroy
        client_fsm_types.two_top_bits 1).1.GetCount = 0 ∧
      (((Queue.ctor client_fsm_types.two_top_bits).PushCreate client_fsm_types.two_top_bits 1 7).1.PushDestroy
        client_fsm_types.two_top_bits 1).1.Front = variant_t.ctor :=
  Queue_create_destroy_annihilate client_fsm_types.two_top_bits (by decide)
    (Queue.ctor client_fsm_types.two_top_bits) 1 7 (by decide) (by decide) (by decide) (by decide)

/-- C7. For all dialogs `A` and `B` (neither none) and bytes `a`, `b`: on a
freshly constructed `SmartQueue`, after `PushCreate(A, a)` then
`PushCreate(B, b)` the base level `queue0` holds exactly the `Create` record of
`A` and the nested level `queue1` exactly that of `B`, `Front()` is
`Create(A, a)`, and after one `Pop()` `Front()` is `Create(B, b)`. -/
theorem SmartQueue_nested_create_order (K : client_fsm_types) (A B a b : Nat)
    (hA : A ≠ K._none) (hB : B ≠ K._none) :
    (((SmartQueue.ctor K).PushCreate K A a).PushCreate K B b).queue0.pending =
        [variant_t.of_create (create_t.ctor K A a)] ∧
      (((SmartQueue.ctor K).PushCreate K A a).PushCreate K B b).queue1.pending =
        [variant_t.of_create (create_t.ctor K B b)] ∧
      (((SmartQueue.ctor K).PushCreate K A a).PushCreate K B b).Front K =
        variant_t.of_create (create_t.ctor K A a) ∧
      ((((SmartQueue.ctor K).PushCreate K A a).PushCreate K B b).Pop K).Front K =
        variant_t.of_create (create_t.ctor K B b) := by
  have hA' : ¬ K._none = A := fun h => hA h.symm
  have hB' : ¬ K._none = B := fun h => hB h.symm
  have h1 : (SmartQueue.ctor K).PushCreate K A a =
      { queue0 := { queue := ⟨variant_t.of_create (create_t.ctor K A a), variant_t.ctor, variant_t.ctor⟩,
                    count := 1, opened_fsm := A },
        queue1 := Queue.ctor K, prior_commands_in_queue0 := 0 } := by
    simp [SmartQueue.PushCreate, SmartQueue.ctor, Queue.ctor, Queue.GetOpenFsm, Queue.GetCreateIndex,
      Queue.PushCreate, Queue.pushCreate, Queue.push, array3.set, hA, hA']
  have h2 : ((SmartQueue.ctor K).PushCreate K A a).PushCreate K B b =
      { queue0 := { queue := ⟨variant_t.of_create (create_t.ctor K A a), variant_t.ctor, variant_t.ctor⟩,
                    count := 1, opened_fsm := A },
        queue1 := { queue := ⟨variant_t.of_create (create_t.ctor K B b), variant_t.ctor, variant_t.ctor⟩,
                    count := 1, opened_fsm := B },
        prior_commands_in_queue0 := 1 } := by
    rw [h1]
    simp [SmartQueue.PushCreate, Queue.ctor, Queue.GetOpenFsm, Queue.GetCount,
      Queue.PushCreate, Queue.pushCreate, Queue.push, array3.set, hA, hB, hB']
  rw [h2]
  refine ⟨by simp [Queue.pending, array3.toList], by simp [Queue.pending, array3.toList], ?_, ?_⟩
  · simp [SmartQueue.Front, SmartQueue.serves_base, Queue.GetCount, Queue.Front, array3.get]
  · have hs : SmartQueue.serves_base K
        { queue0 := { queue := ⟨variant_t.of_create (create_t.ctor K A a), variant_t.ctor, variant_t.ctor⟩,
                      count := 1, opened_fsm := A },
          queue1 := { queue := ⟨variant_t.of_create (create_t.ctor K B b), variant_t.ctor, variant_t.ctor⟩,
                      count := 1, opened_fsm := B },
          prior_commands_in_queue0 := 1 } = true := by
      simp [SmartQueue.serves_base, Queue.GetCount]
    simp [SmartQueue.Pop, hs, Queue.Pop, SmartQueue.Front, SmartQueue.serves_base, Queue.GetCount,
      Queue.GetCreateIndex, Queue.Front, array3.get]

/-- C7 at the two-top-bits header with dialogs 1 and 2. -/
theorem SmartQueue_nested_create_order_witness :
    (((SmartQueue.ctor client_fsm_types.two_top_bits).PushCreate client_fsm_types.two_top_bits 1 7).PushCreate
        client_fsm_types.two_top_bits 2 8).queue0.pending =
        [variant_t.of_create (create_t.ctor client_fsm_types.two_top_bits 1 7)] ∧
      (((SmartQueue.ctor client_fsm_types.two_top_bits).PushCreate client_fsm_types.two_top_bits 1 7).PushCreate
        client_fsm_types.two_top_bits 2 8).queue1.pending =
        [variant_t.of_create (create_t.ctor client_fsm_types.two_top_bits 2 8)] ∧
      (((SmartQueue.ctor client_fsm_types.two_top_bits).PushCreate client_fsm_types.two_top_bits 1 7).PushCreate
        client_fsm_types.two_top_bits 2 8).Front client_fsm_types.two_top_bits =
        variant_t.of_create (create_t.ctor client_fsm_types.two_top_bits 1 7) ∧
      ((((SmartQueue.ctor client_fsm_types.two_top_bits).PushCreate client_fsm_types.two_top_bits 1 7).PushCreate
        client_fsm_types.two_top_bits 2 8).Pop client_fsm_types.two_top_bits).Front
          client_fsm_types.two_top_bits =
        variant_t.of_create (create_t.ctor client_fsm_types.two_top_bits 2 8) :=
  SmartQueue_nested_create_order client_fsm_types.two_top_bits 1 2 7 8 (by decide) (by decide)

/-- C8. For every `SmartQueue` state in which dialog `A` is open at the base
level and a distinct dialog `B` is open at the nested level, after
`PushDestroy(A)` both levels hold no records, `GetCount()` is 0 for `queue0`
and `queue1`, and `Front()` returns the None record; no dialog is open at
either level any more. -/
theorem SmartQueue_destroy_base_clears_both (K : client_fsm_types) (s : SmartQueue) (A B : Nat)
    (hA : A ≠ K._none) (hB : B ≠ K._none) (h0 : s.queue0.GetOpenFsm = A)
    (h1 : s.queue1.GetOpenFsm = B) (hAB : A ≠ B) :
    (s.PushDestroy K A).queue0.GetCount = 0 ∧ (s.PushDestroy K A).queue1.GetCount = 0 ∧
      (s.PushDestroy K A).Front K = variant_t.ctor ∧
      (s.PushDestroy K A).queue0.GetOpenFsm = K._none ∧
      (s.PushDestroy K A).queue1.GetOpenFsm = K._none := by
  simp only [Queue.GetOpenFsm] at h0 h1
  have hBA : ¬ s.queue1.opened_fsm = A := by rw [h1]; exact fun h => hAB h.symm
  have hn0 : ¬ s.queue0.opened_fsm = K._none := by rw [h0]; exact hA
  have hn1 : ¬ s.queue1.opened_fsm = K._none := by rw [h1]; exact hB
  have hr : (s.queue0.PushDestroy K A).2 = ret_val.ok := by
    simp only [Queue.PushDestroy, hA, hn0, h0, if_false, ne_eq, not_true_eq_false, Queue.pushDestroy]
    split_ifs <;> rfl
  have ho0 : (s.queue0.PushDestroy K A).1.opened_fsm = K._none := by
    simp only [Queue.PushDestroy, hA, hn0, h0, if_false, ne_eq, not_true_eq_false]
  have ho1 : (s.queue1.PushDestroy K s.queue1.opened_fsm).1.opened_fsm = K._none := by
    simp only [Queue.PushDestroy, hn1, if_false, ne_eq, not_true_eq_false]
  have hs : s.PushDestroy K A = SmartQueue.clear
      { s with queue0 := (s.queue0.PushDestroy K A).1,
               queue1 := (s.queue1.PushDestroy K s.queue1.opened_fsm).1 } := by
    simp only [SmartQueue.PushDestroy, Queue.GetOpenFsm, hBA, h0, if_true, if_false, hr, ne_eq,
      not_true_eq_false, hn1, not_false_eq_true]
  rw [hs]
  simp [SmartQueue.clear, Queue.Clear, Queue.GetCount, Queue.GetOpenFsm, ho0, ho1,
    SmartQueue.Front, SmartQueue.serves_base, Queue.GetCreateIndex, Queue.Front]

/-- C8 at the two-top-bits header: dialog 1 created and popped, dialog 2
created at the nested level, then dialog 1 destroyed. -/
theorem SmartQueue_destroy_base_clears_both_witness :
    (((((SmartQueue.ctor client_fsm_types.two_top_bits).PushCreate client_fsm_types.two_top_bits 1 7).Pop
        client_fsm_types.two_top_bits).PushCreate client_fsm_types.two_top_bits 2 8).PushDestroy
          client_fsm_types.two_top_bits 1).queue0.GetCount = 0 ∧
      (((((SmartQueue.ctor client_fsm_types.two_top_bits).PushCreate client_fsm_types.two_top_bits 1 7).Pop
        client_fsm_types.two_top_bits).PushCreate client_fsm_types.two_top_bits 2 8).PushDestroy
          client_fsm_types.two_top_bits 1).queue1.GetCount = 0 ∧
      (((((SmartQueue.ctor client_fsm_types.two_top_bits).PushCreate client_fsm_types.two_top_bits 1 7).Pop
        client_fsm_types.two_top_bits).PushCreate client_fsm_types.two_top_bits 2 8).PushDestroy
          client_fsm_types.two_top_bits 1).Front client_fsm_types.two_top_bits = variant_t.ctor :=
  have h := SmartQueue_destroy_base_clears_both client_fsm_types.two_top_bits
    ((((SmartQueue.ctor client_fsm_types.two_top_bits).PushCreate client_fsm_types.two_top_bits 1 7).Pop
      client_fsm_types.two_top_bits).PushCreate client_fsm_types.two_top_bits 2 8) 1 2
    (by decide) (by decide) (by decide) (by decide) (by decide)
  ⟨h.1, h.2.1, h.2.2.1⟩

/-- The command of a record whose tag byte was built for a command and a
valid dialog. -/
theorem variant_t.GetCommand_of_tag (K : client_fsm_types) {c D : Nat} (hm : K._mask < 256)
    (hc : c &&& K._mask = c) (hD : K.ValidType D) {v : variant_t} (hv : v.type = type_t.ctor c D) :
    v.GetCommand K = c := by
  simp only [variant_t.GetCommand, variant_t.create]
  rw [hv]
  exact type_t_GetCommand_ctor K hm hc hD

/-- The constructed queue has a reachable shape. -/
theorem Queue.Shape_ctor (K : client_fsm_types) (fifo : Bool) : (Queue.ctor K).Shape K fifo :=
  Or.inl ⟨rfl, Or.inl rfl⟩

/-- `Clear` keeps the shape. -/
theorem Queue.Shape_Clear (K : client_fsm_types) (fifo : Bool) (q : Queue) (h : q.Shape K fifo) :
    q.Clear.Shape K fifo := by
  rcases h with ⟨ho, _⟩ | ⟨ho, hv, _⟩
  · exact Or.inl ⟨ho, Or.inl rfl⟩
  · exact Or.inr ⟨ho, hv, Or.inl rfl⟩

/-- `Pop` keeps the shape. -/
theorem Queue.Shape_Pop (K : client_fsm_types) (fifo : Bool) (q : Queue) (h : q.Shape K fifo) :
    q.Pop.1.Shape K fifo := by
  obtain ⟨⟨a0, a1, a2⟩, n, o⟩ := q
  simp only [Queue.Shape, array3.get] at h
  rcases h with ⟨ho, hn | ⟨hn, h0⟩⟩ |
    ⟨ho, hv, hn | ⟨hn, h0⟩ | ⟨hn, ⟨h0, h1⟩ | ⟨hf, h0, h1⟩ | ⟨h0, h1⟩⟩ | ⟨hn, h0, h1, h2⟩⟩ <;>
    subst hn <;> simp_all [Queue.Pop, Queue.Shape, array3.get]

/-- `Clear_last` keeps the shape in which records may have left at the back. -/
theorem Queue.Shape_Clear_last (K : client_fsm_types) (q : Queue) (h : q.Shape K false) :
    q.Clear_last.Shape K false := by
  obtain ⟨⟨a0, a1, a2⟩, n, o⟩ := q
  simp only [Queue.Shape, array3.get] at h
  rcases h with ⟨ho, hn | ⟨hn, h0⟩⟩ |
    ⟨ho, hv, hn | ⟨hn, h0⟩ | ⟨hn, ⟨h0, h1⟩ | ⟨hf, h0, h1⟩ | ⟨h0, h1⟩⟩ | ⟨hn, h0, h1, h2⟩⟩ <;>
    subst hn <;> simp_all [Queue.Clear_last, Queue.Shape, array3.get]

/-- `PushCreate` for a valid dialog keeps the shape. -/
theorem Queue.Shape_PushCreate (K : client_fsm_types) (fifo : Bool) (q : Queue) (type data : Nat)
    (hty : K.ValidType type) (h : q.Shape K fifo) : (q.PushCreate K type data).1.Shape K fifo := by
  unfold Queue.PushCreate
  split_ifs with h1 h2 h3
  · exact h
  · exact h
  · exact h
  · have ho : q.opened_fsm = K._none := not_not.mp h3
    obtain ⟨⟨a0, a1, a2⟩, n, o⟩ := q
    simp only [Queue.Shape, array3.get] at h
    simp only at ho
    rcases h with ⟨_, hn | ⟨hn, h0⟩⟩ | ⟨hno, _⟩
    · subst hn
      simp [Queue.Shape, Queue.pushCreate, Queue.push, array3.set, array3.get, h1, hty,
        variant_t.of_create, create_t.ctor]
    · subst hn
      simp [Queue.Shape, Queue.pushCreate, Queue.push, array3.set, array3.get, h1, hty,
        variant_t.of_create, create_t.ctor, h0]
    · exact absurd ho hno

/-- The buffer that holds one `Destroy` record and has no dialog open has a
reachable shape. -/
theorem Queue.Shape_collapse (K : client_fsm_types) (hK : K.MaskCovers) (fifo : Bool) (q : Queue)
    (type : Nat) (hty : K.ValidType type) :
    Queue.Shape K fifo
      { q.Clear.push (variant_t.of_destroy (destroy_t.ctor K type)) with opened_fsm := K._none } := by
  have hdc := variant_t.GetCommand_of_destroy K hK hty
  exact Or.inl ⟨rfl, Or.inr ⟨rfl, by simpa [Queue.Clear, Queue.push, array3.set, array3.get] using hdc⟩⟩

/-- `PushDestroy` keeps the shape. -/
theorem Queue.Shape_PushDestroy (K : client_fsm_types) (hK : K.WellFormed) (fifo : Bool) (q : Queue)
    (type : Nat) (h : q.Shape K fifo) : (q.PushDestroy K type).1.Shape K fifo := by
  unfold Queue.PushDestroy
  split_ifs with hn1 hn2 hn3
  · exact h
  · exact h
  · exact h
  · have ho : q.opened_fsm = type := not_not.mp hn3
    obtain ⟨⟨a0, a1, a2⟩, n, o⟩ := q
    simp only at ho hn2
    subst ho
    simp only [Queue.Shape, array3.get] at h
    obtain ⟨hmask, _, _, _, hcd, hcc, hdc⟩ := hK
    rcases h with ⟨hno, _⟩ | ⟨_, hv, hcases⟩
    · exact absurd hno hn2
    · unfold Queue.pushDestroy
      split_ifs with hidx
      swap
      · exact Queue.Shape_collapse K hmask fifo _ o hv
      · have hcd2 : ¬ K.destroy = K.create := fun e => hcd e.symm
        have hcc2 : ¬ K.change = K.create := fun e => hcc e.symm
        rcases hcases with hn | ⟨hn, r0 | r0 | r0⟩ |
          ⟨hn, ⟨r0, r1⟩ | ⟨hf, r0, r1⟩ | ⟨r0, r1⟩⟩ | ⟨hn, r0, r1, r2⟩
        · subst hn
          simp [Queue.GetCreateIndex] at hidx
        · subst hn
          simp [Queue.GetCreateIndex, array3.get, r0.2, hcd2] at hidx
        · subst hn
          have c0 := variant_t.GetCommand_of_tag K hmask.1 hmask.2.1 hv r0
          simp [Queue.Shape, Queue.GetCreateIndex, array3.get, c0]
        · subst hn
          have c0 := variant_t.GetCommand_of_tag K hmask.1 hmask.2.2.2 hv r0
          simp [Queue.GetCreateIndex, array3.get, c0, hcc2] at hidx
        · subst hn
          have c1 := variant_t.GetCommand_of_tag K hmask.1 hmask.2.1 hv r1
          simp [Queue.Shape, Queue.GetCreateIndex, array3.get, c1, r0]
        · subst hn
          have c1 := variant_t.GetCommand_of_tag K hmask.1 hmask.2.2.2 hv r1
          simp [Queue.GetCreateIndex, array3.get, c1, r0, hcc2, hcd2] at hidx
        · subst hn
          have c0 := variant_t.GetCommand_of_tag K hmask.1 hmask.2.1 hv r0
          have c1 := variant_t.GetCommand_of_tag K hmask.1 hmask.2.2.2 hv r1
          simp [Queue.Shape, Queue.GetCreateIndex, array3.get, c0, c1, hcc2]
        · subst hn
          have c1 := variant_t.GetCommand_of_tag K hmask.1 hmask.2.1 hv r1
          have c2 := variant_t.GetCommand_of_tag K hmask.1 hmask.2.2.2 hv r2
          simp [Queue.Shape, Queue.GetCreateIndex, array3.get, c1, c2, hcc2, r0]

/-- The tag bytes of two different commands differ. -/
theorem type_t_ctor_ne (K : client_fsm_types) {c c' D : Nat} (hm : K._mask < 256)
    (hc : c &&& K._mask = c) (hc' : c' &&& K._mask = c') (hD : K.ValidType D) (hne : c ≠ c') :
    type_t.ctor c D ≠ type_t.ctor c' D := by
  intro h
  have h1 := type_t_GetCommand_ctor K hm hc hD
  rw [h, type_t_GetCommand_ctor K hm hc' hD] at h1
  exact hne h1.symm

/-- `PushChange` keeps the shape. -/
theorem Queue.Shape_PushChange (K : client_fsm_types) (hK : K.WellFormed) (fifo : Bool) (q : Queue)
    (type : Nat) (data : BaseData) (h : q.Shape K fifo) :
    (q.PushChange K type data).1.Shape K fifo := by
  unfold Queue.PushChange
  split_ifs with hn1 hn2
  · exact h
  · exact h
  · have ho : q.opened_fsm = type := not_not.mp hn2
    obtain ⟨⟨a0, a1, a2⟩, n, o⟩ := q
    simp only at ho
    subst ho
    simp only [Queue.Shape, array3.get] at h
    obtain ⟨hmask, _, _, _, hcd, hcc, hdc⟩ := hK
    have htag : (change_t.ctor K o data).type = type_t.ctor K.change o := rfl
    have hnew : (variant_t.of_change (change_t.ctor K o data)).type = type_t.ctor K.change o := rfl
    rcases h with ⟨hno, _⟩ | ⟨_, hv, hcases⟩
    · exact absurd hno hn1
    · have hne : type_t.ctor K.create o ≠ type_t.ctor K.change o :=
        type_t_ctor_ne K hmask.1 hmask.2.1 hmask.2.2.2 hv hcc
      have hdne : ∀ v : variant_t, v.GetCommand K = K.destroy → ¬ v.type = type_t.ctor K.change o := by
        intro v hvd e
        exact hdc (hvd.symm.trans (variant_t.GetCommand_of_tag K hmask.1 hmask.2.2.2 hv e))
      rcases hcases with hn | ⟨hn, r0 | r0 | r0⟩ |
        ⟨hn, ⟨r0, r1⟩ | ⟨hf, r0, r1⟩ | ⟨r0, r1⟩⟩ | ⟨hn, r0, r1, r2⟩
      · subst hn
        simp [Queue.Shape, Queue.pushChange, Queue.push, Queue.Back, array3.get, array3.set, hn1, hv,
          hnew]
      · subst hn
        simp [Queue.Shape, Queue.pushChange, Queue.push, Queue.Back, array3.get, array3.set, hn1, hv,
          hnew, htag, hdne a0 r0.2, r0.1, r0.2]
      · subst hn
        simp [Queue.Shape, Queue.pushChange, Queue.push, Queue.Back, array3.get, array3.set, hn1, hv,
          hnew, htag, r0, hne]
      · subst hn
        simp [Queue.Shape, Queue.pushChange, Queue.push, Queue.Back, array3.get, array3.set, hn1, hv,
          hnew, htag, r0]
      · subst hn
        simp [Queue.Shape, Queue.pushChange, Queue.push, Queue.Back, array3.get, array3.set, hn1, hv,
          hnew, htag, r0, r1, hne]
      · subst hn
        simp [Queue.Shape, Queue.pushChange, Queue.push, Queue.Back, array3.get, array3.set, hn1, hv,
          hnew, htag, r0, r1, hf]
      · subst hn
        simp [Queue.Shape, Queue.pushChange, Queue.push, Queue.Back, array3.get, array3.set, hn1, hv,
          hnew, htag, r0, r1]
      · subst hn
        simp [Queue.Shape, Queue.pushChange, Queue.push, Queue.Back, array3.get, array3.set, hn1, hv,
          hnew, htag, r0, r1, r2]

/-- Every public operation called with a valid dialog keeps the shape;
`Clear_last` keeps the shape in which records may have left at the back. -/
theorem Queue.Shape_call (K : client_fsm_types) (hK : K.WellFormed) (fifo : Bool) (q : Queue)
    (c : Queue.Call) (hc : c.Valid K) (hcl : fifo = true → c ≠ Queue.Call.Clear_last)
    (h : q.Shape K fifo) : (q.call K c).Shape K fifo := by
  cases c with
  | PushCreate type data => exact Queue.Shape_PushCreate K fifo q type data hc h
  | PushDestroy type => exact Queue.Shape_PushDestroy K hK fifo q type h
  | PushChange type data => exact Queue.Shape_PushChange K hK fifo q type data h
  | Pop => exact Queue.Shape_Pop K fifo q h
  | Clear => exact Queue.Shape_Clear K fifo q h
  | Clear_last =>
    cases fifo with
    | false => exact Queue.Shape_Clear_last K q h
    | true => exact absurd rfl (hcl rfl)

/-- A sequence of calls keeps the shape. -/
theorem Queue.Shape_calls (K : client_fsm_types) (hK : K.WellFormed) (fifo : Bool)
    (cs : List Queue.Call) (q : Queue)
    (hcs : ∀ c ∈ cs, c.Valid K ∧ (fifo = true → c ≠ Queue.Call.Clear_last))
    (h : q.Shape K fifo) : (q.calls K cs).Shape K fifo := by
  induction cs generalizing q with
  | nil => simpa [Queue.calls] using h
  | cons c cs ih =>
    simp only [Queue.calls, List.foldl_cons]
    have hc := hcs c (List.mem_cons_self c cs)
    exact ih (q.call K c) (fun d hd => hcs d (List.mem_cons_of_mem c hd))
      (Queue.Shape_call K hK fifo q c hc.1 hc.2 h)

/-- A reachable state has the shape in which records may have left at the
back. -/
theorem Queue.Shape_of_Reachable (K : client_fsm_types) (hK : K.WellFormed) (q : Queue)
    (h : q.Reachable K) : q.Shape K false := by
  obtain ⟨cs, hcs, rfl⟩ := h
  exact Queue.Shape_calls K hK false cs _ (fun c hc => ⟨hcs c hc, fun e => absurd e (by decide)⟩)
    (Queue.Shape_ctor K false)

/-- C3. For every state of a queue, reached from the constructed state by calls
of the public operations with valid dialog identities, in which dialog `D` is
the opened identity, and for all payload blocks `p1` and `p2`: `PushChange(D,
p1)` then `PushChange(D, p2)` both return `ok`, `Back()` is `Change(D, p2)`
and the pending `Change` records are that one record. -/
theorem Queue_PushChange_twice_merges (K : client_fsm_types) (hK : K.WellFormed) (q : Queue)
    (D : Nat) (p1 p2 : BaseData) (hq : q.Reachable K) (hDn : D ≠ K._none)
    (hopen : q.GetOpenFsm = D) :
    (q.PushChange K D p1).2 = ret_val.ok ∧
      ((q.PushChange K D p1).1.PushChange K D p2).2 = ret_val.ok ∧
      ((q.PushChange K D p1).1.PushChange K D p2).1.Back =
        variant_t.of_change (change_t.ctor K D p2) ∧
      ((q.PushChange K D p1).1.PushChange K D p2).1.pending_changes K =
        [variant_t.of_change (change_t.ctor K D p2)] := by
  have hs := Queue.Shape_of_Reachable K hK q hq
  obtain ⟨⟨a0, a1, a2⟩, n, o⟩ := q
  simp only [Queue.GetOpenFsm] at hopen
  subst hopen
  simp only [Queue.Shape, array3.get] at hs
  obtain ⟨hmask, _, _, _, hcd, hcc, hdc⟩ := hK
  rcases hs with ⟨hno, _⟩ | ⟨_, hv, hcases⟩
  · exact absurd hno hDn
  · have htag : ∀ p, (change_t.ctor K o p).type = type_t.ctor K.change o := fun _ => rfl
    have hnew : ∀ p, (variant_t.of_change (change_t.ctor K o p)).type = type_t.ctor K.change o :=
      fun _ => rfl
    have cnew := variant_t.GetCommand_of_change K hmask hv
    have hne : type_t.ctor K.create o ≠ type_t.ctor K.change o :=
      type_t_ctor_ne K hmask.1 hmask.2.1 hmask.2.2.2 hv hcc
    have hdne : ∀ v : variant_t, v.GetCommand K = K.destroy → ¬ v.type = type_t.ctor K.change o := by
      intro v hvd e
      exact hdc (hvd.symm.trans (variant_t.GetCommand_of_tag K hmask.1 hmask.2.2.2 hv e))
    have ccr : ∀ v : variant_t, v.type = type_t.ctor K.create o → ¬ v.GetCommand K = K.change := by
      intro v e hc
      exact hcc ((variant_t.GetCommand_of_tag K hmask.1 hmask.2.1 hv e).symm.trans hc)
    rcases hcases with hn | ⟨hn, r0 | r0 | r0⟩ |
      ⟨hn, ⟨r0, r1⟩ | ⟨hf, r0, r1⟩ | ⟨r0, r1⟩⟩ | ⟨hn, r0, r1, r2⟩
    · subst hn
      simp [Queue.PushChange, Queue.pushChange, Queue.push, Queue.Back, Queue.pending_changes,
        Queue.pending, array3.toList, array3.get, array3.set, hDn, htag, hnew, cnew]
    · subst hn
      simp [Queue.PushChange, Queue.pushChange, Queue.push, Queue.Back, Queue.pending_changes,
        Queue.pending, array3.toList, array3.get, array3.set, hDn, htag, hnew, cnew, hdne a0 r0.2,
        r0.2, hdc]
    · subst hn
      simp [Queue.PushChange, Queue.pushChange, Queue.push, Queue.Back, Queue.pending_changes,
        Queue.pending, array3.toList, array3.get, array3.set, hDn, htag, hnew, cnew, r0, hne,
        ccr a0 r0]
    · subst hn
      simp [Queue.PushChange, Queue.pushChange, Queue.push, Queue.Back, Queue.pending_changes,
        Queue.pending, array3.toList, array3.get, array3.set, hDn, htag, hnew, cnew, r0]
    · subst hn
      simp [Queue.PushChange, Queue.pushChange, Queue.push, Queue.Back, Queue.pending_changes,
        Queue.pending, array3.toList, array3.get, array3.set, hDn, htag, hnew, cnew, r0, r1, hne,
        ccr a1 r1, hdc]
    · subst hn
      simp [Queue.PushChange, Queue.pushChange, Queue.push, Queue.Back, Queue.pending_changes,
        Queue.pending, array3.toList, array3.get, array3.set, hDn, htag, hnew, cnew, r0, r1, hdc]
    · subst hn
      simp [Queue.PushChange, Queue.pushChange, Queue.push, Queue.Back, Queue.pending_changes,
        Queue.pending, array3.toList, array3.get, array3.set, hDn, htag, hnew, cnew, r0, r1,
        ccr a0 r0]
    · subst hn
      simp [Queue.PushChange, Queue.pushChange, Queue.push, Queue.Back, Queue.pending_changes,
        Queue.pending, array3.toList, array3.get, array3.set, hDn, htag, hnew, cnew, r0, r1, r2,
        ccr a1 r1, hdc]

/-- C3 at the two-top-bits header: dialog 1 created on the constructed queue,
then two changes. -/
theorem Queue_PushChange_twice_merges_witness :
    ((((Queue.ctor client_fsm_types.two_top_bits).PushCreate client_fsm_types.two_top_bits 1 0).1.PushChange
        client_fsm_types.two_top_bits 1 ⟨6, 0, 0, 0, 0⟩).1.PushChange
          client_fsm_types.two_top_bits 1 ⟨7, 0, 0, 0, 0⟩).1.Back =
        variant_t.of_change (change_t.ctor client_fsm_types.two_top_bits 1 ⟨7, 0, 0, 0, 0⟩) ∧
      ((((Queue.ctor client_fsm_types.two_top_bits).PushCreate client_fsm_types.two_top_bits 1 0).1.PushChange
        client_fsm_types.two_top_bits 1 ⟨6, 0, 0, 0, 0⟩).1.PushChange
          client_fsm_types.two_top_bits 1 ⟨7, 0, 0, 0, 0⟩).1.pending_changes
            client_fsm_types.two_top_bits =
        [variant_t.of_change (change_t.ctor client_fsm_types.two_top_bits 1 ⟨7, 0, 0, 0, 0⟩)] :=
  have h := Queue_PushChange_twice_merges client_fsm_types.two_top_bits (by decide)
    ((Queue.ctor client_fsm_types.two_top_bits).PushCreate client_fsm_types.two_top_bits 1 0).1
    1 ⟨6, 0, 0, 0, 0⟩ ⟨7, 0, 0, 0, 0⟩ ⟨[.PushCreate 1 0], by decide, rfl⟩ (by decide) (by decide)
  ⟨h.2.2.1, h.2.2.2⟩

/-- Appending to a buffer with a free slot puts the record after the pending ones. -/
theorem Queue.pending_push {q : Queue} (v : variant_t) (hn : q.count < 3) :
    (q.push v).pending = q.pending ++ [v] := by
  obtain ⟨⟨a0, a1, a2⟩, n, o⟩ := q
  simp only at hn
  interval_cases n <;> simp [Queue.pending, Queue.push, array3.toList, array3.set]

/-- Overwriting the newest record replaces the last pending record. -/
theorem Queue.pending_set_back {q : Queue} (v : variant_t) (h0 : q.count ≠ 0) (hn : q.count ≤ 3) :
    ({ q with queue := q.queue.set (q.count - 1) v } : Queue).pending = q.pending.dropLast ++ [v] := by
  obtain ⟨⟨a0, a1, a2⟩, n, o⟩ := q
  simp only at hn h0
  interval_cases n <;> simp_all [Queue.pending, array3.toList, array3.set]

/-- The records the eviction leaves were pending before. -/
theorem Queue.pending_evict_subset (K : client_fsm_types) {q : Queue} (hn : q.count = 3) :
    ∀ v ∈ (q.evict K).pending, v ∈ q.pending := by
  obtain ⟨⟨a0, a1, a2⟩, n, o⟩ := q
  simp only at hn
  subst hn
  simp only [Queue.evict, array3.get]
  split_ifs <;> simp [Queue.pending, array3.toList]

/-- Without a pending `Create`, `GetCreateIndex` is -1. -/
theorem Queue.GetCreateIndex_eq_neg_one (K : client_fsm_types) (q : Queue) (hn : q.count ≤ 3)
    (h : ∀ v ∈ q.pending, v.GetCommand K ≠ K.create) : q.GetCreateIndex K = -1 := by
  obtain ⟨⟨a0, a1, a2⟩, n, o⟩ := q
  simp only at hn
  interval_cases n <;>
    simp_all [Queue.GetCreateIndex, Queue.pending, array3.toList, array3.get]

/-- A `PushChange` keeps the dialog open, the count within three and a buffer
of `Change` records a buffer of `Change` records. -/
theorem Queue.PushChange_only_changes (K : client_fsm_types) (hK : K.MaskCovers) (q : Queue)
    (D : Nat) (p : BaseData) (hD : K.ValidType D) (hopen : q.opened_fsm = D) (hn : q.count ≤ 3)
    (hall : ∀ v ∈ q.pending, v.GetCommand K = K.change) :
    (q.PushChange K D p).1.opened_fsm = D ∧ (q.PushChange K D p).1.count ≤ 3 ∧
      ∀ v ∈ (q.PushChange K D p).1.pending, v.GetCommand K = K.change := by
  have hnew := variant_t.GetCommand_of_change K hK hD p
  obtain ⟨hec, heo⟩ := Queue.evict_count K q
  simp only [Queue.PushChange, Queue.pushChange]
  split_ifs with h1 h2 h3 h4
  · exact ⟨hopen, hn, hall⟩
  · exact ⟨hopen, hn, hall⟩
  · refine ⟨hopen, hn, ?_⟩
    intro v hv
    rw [Queue.pending_set_back _ h3.1 hn] at hv
    rcases List.mem_append.mp hv with h | h
    · exact hall v (List.mem_of_mem_dropLast h)
    · rw [List.mem_singleton.mp h]; exact hnew
  · refine ⟨hopen, by simp only [Queue.push]; omega, ?_⟩
    intro v hv
    rw [Queue.pending_push _ h4] at hv
    rcases List.mem_append.mp hv with h | h
    · exact hall v h
    · rw [List.mem_singleton.mp h]; exact hnew
  · refine ⟨by simp only [Queue.push, heo]; exact hopen, by simp only [Queue.push, hec]; omega, ?_⟩
    intro v hv
    rw [Queue.pending_push _ (by omega)] at hv
    rcases List.mem_append.mp hv with h | h
    · exact hall v (Queue.pending_evict_subset K (by omega) v h)
    · rw [List.mem_singleton.mp h]; exact hnew

/-- A sequence of `PushChange` calls for the open dialog keeps it open, the
count within three and a buffer of `Change` records a buffer of `Change`
records. -/
theorem Queue.calls_PushChange_only_changes (K : client_fsm_types) (hK : K.MaskCovers) (D : Nat)
    (hD : K.ValidType D) (ps : List BaseData) (q : Queue) (hopen : q.opened_fsm = D)
    (hn : q.count ≤ 3) (hall : ∀ v ∈ q.pending, v.GetCommand K = K.change) :
    (q.calls K (ps.map (Queue.Call.PushChange D))).opened_fsm = D ∧
      (q.calls K (ps.map (Queue.Call.PushChange D))).count ≤ 3 ∧
      ∀ v ∈ (q.calls K (ps.map (Queue.Call.PushChange D))).pending, v.GetCommand K = K.change := by
  induction ps generalizing q with
  | nil => exact ⟨hopen, hn, hall⟩
  | cons p ps ih =>
    obtain ⟨h1, h2, h3⟩ := Queue.PushChange_only_changes K hK q D p hD hopen hn hall
    simpa [Queue.calls, Queue.call] using ih (q.PushChange K D p).1 h1 h2 h3

/-- On a buffer of `Change` records with the dialog open, `PushDestroy` returns
`ok` and leaves the `Destroy` record alone in the buffer. -/
theorem Queue.PushDestroy_only_changes (K : client_fsm_types) (hK : K.WellFormed) (q : Queue)
    (D : Nat) (hDn : D ≠ K._none) (hopen : q.opened_fsm = D) (hn : q.count ≤ 3)
    (hall : ∀ v ∈ q.pending, v.GetCommand K = K.change) :
    q.PushDestroy K D =
      ({ queue := q.queue.set 0 (variant_t.of_destroy (destroy_t.ctor K D)), count := 1,
         opened_fsm := K._none }, ret_val.ok) := by
  have hidx : q.GetCreateIndex K = -1 := by
    apply Queue.GetCreateIndex_eq_neg_one K q hn
    intro v hv hcr
    exact hK.2.2.2.2.2.1 ((hall v hv) ▸ hcr).symm
  simp [Queue.PushDestroy, Queue.pushDestroy, hDn, hopen, hidx, Queue.Clear, Queue.push]

/-- C4. For every dialog `D` other than none and byte `x`: starting from an
empty queue with no dialog open (the constructed queue is one),
`PushCreate(D, x)` returns `ok`, `Pop()` removes that `Create`, and after any
number of `PushChange(D, p)` calls `PushDestroy(D)` returns `ok` and `Front()`
is the `Destroy` record for `D`, the only pending record. -/
theorem Queue_destroy_after_popped_create (K : client_fsm_types) (hK : K.WellFormed) (q : Queue)
    (D x : Nat) (ps : List BaseData) (hD : K.ValidType D) (hDn : D ≠ K._none)
    (hempty : q.GetCount = 0) (hclosed : q.GetOpenFsm = K._none) :
    (q.PushCreate K D x).2 = ret_val.ok ∧
      (q.PushCreate K D x).1.Front = variant_t.of_create (create_t.ctor K D x) ∧
      (q.PushCreate K D x).1.Pop.2 = true ∧
      (((q.PushCreate K D x).1.Pop.1.calls K (ps.map (Queue.Call.PushChange D))).PushDestroy K D).2 =
        ret_val.ok ∧
      (((q.PushCreate K D x).1.Pop.1.calls K (ps.map (Queue.Call.PushChange D))).PushDestroy K D).1.Front =
        variant_t.of_destroy (destroy_t.ctor K D) ∧
      (((q.PushCreate K D x).1.Pop.1.calls K (ps.map (Queue.Call.PushChange D))).PushDestroy K D).1.pending =
        [variant_t.of_destroy (destroy_t.ctor K D)] := by
  simp only [Queue.GetCount, Queue.GetOpenFsm] at hempty hclosed
  have hne : ¬ K._none = D := fun h => hDn h.symm
  have hc : q.PushCreate K D x =
      ({ queue := q.queue.set 0 (variant_t.of_create (create_t.ctor K D x)), count := 1,
         opened_fsm := D }, ret_val.ok) := by
    simp [Queue.PushCreate, Queue.pushCreate, Queue.push, hDn, hne, hclosed, hempty]
  rw [hc]
  refine ⟨rfl, by simp [Queue.Front, array3.set, array3.get], by simp [Queue.Pop], ?_⟩
  have ho2 : (Queue.Pop
      { queue := q.queue.set 0 (variant_t.of_create (create_t.ctor K D x)), count := 1,
        opened_fsm := D }).1.opened_fsm = D := by
    simp [Queue.Pop]
  have hc2 : (Queue.Pop
      { queue := q.queue.set 0 (variant_t.of_create (create_t.ctor K D x)), count := 1,
        opened_fsm := D }).1.count = 0 := by
    simp [Queue.Pop]
  obtain ⟨ho3, hn3, hall3⟩ := Queue.calls_PushChange_only_changes K hK.1 D hD ps _ ho2 (by omega)
    (by simp [Queue.pending, hc2])
  rw [Queue.PushDestroy_only_changes K hK _ D hDn ho3 hn3 hall3]
  simp [Queue.Front, Queue.pending, array3.toList, array3.set, array3.get]

/-- C4 at the two-top-bits header: on the constructed queue, create dialog 1,
pop, two changes, destroy. -/
theorem Queue_destroy_after_popped_create_witness :
    ((((Queue.ctor client_fsm_types.two_top_bits).PushCreate client_fsm_types.two_top_bits 1 7).1.Pop.1.calls
        client_fsm_types.two_top_bits
        ([⟨3, 0, 0, 0, 0⟩, ⟨4, 0, 0, 0, 0⟩].map (Queue.Call.PushChange 1))).PushDestroy
          client_fsm_types.two_top_bits 1).1.Front =
      variant_t.of_destroy (destroy_t.ctor client_fsm_types.two_top_bits 1) :=
  (Queue_destroy_after_popped_create client_fsm_types.two_top_bits (by decide)
    (Queue.ctor client_fsm_types.two_top_bits) 1 7 [⟨3, 0, 0, 0, 0⟩, ⟨4, 0, 0, 0, 0⟩]
    (by decide) (by decide) (by decide) (by decide)).2.2.2.2.1

/-- The default record has command none and dialog bits `0`, whatever the header. -/
theorem variant_t.ctor_decode (K : client_fsm_types) :
    variant_t.ctor.GetCommand K = 0 ∧ variant_t.ctor.GetType K = 0 := by
  simp [variant_t.GetCommand, variant_t.GetType, variant_t.create, variant_t.ctor,
    type_t.GetCommand, type_t.GetType]

/-- C11 fails as stated for a header whose `ClientFSM::_none` is not `0`,
which `fsm_types.hpp` allows: its `static_assert` pins only
`ClientFSM_Command::none`. With `_none` the enumerator after eight dialogs the
default record has command none and `GetType()` is `0`, a dialog and not
`ClientFSM::_none`. -/
theorem variant_t_default_type_counterexample :
    variant_t.ctor.GetCommand client_fsm_types.none_after_dialogs = ClientFSM_Command_none ∧
      variant_t.ctor.GetType client_fsm_types.none_after_dialogs = 0 ∧
      variant_t.ctor.GetType client_fsm_types.none_after_dialogs ≠
        client_fsm_types.none_after_dialogs._none := by
  decide

/-- C11, amended. The default-constructed `variant_t` is the all-zero bit
pattern, `u32 = 0` and `u16 = 0`; for every header `GetCommand()` is
`ClientFSM_Command::none` and `GetType()` is `0`, so `GetType()` is
`ClientFSM::_none` exactly when the header gives `_none` the value `0`. -/
theorem variant_t_default_is_zero_none (K : client_fsm_types) :
    variant_t.ctor = ⟨⟨0⟩, ⟨0, 0, 0, 0, 0⟩⟩ ∧ variant_t.ctor.u32 = 0 ∧ variant_t.ctor.u16 = 0 ∧
      variant_t.ctor.GetCommand K = ClientFSM_Command_none ∧
      variant_t.ctor.GetType K = 0 ∧
      (variant_t.ctor.GetType K = K._none ↔ K._none = 0) := by
  refine ⟨rfl, rfl, rfl, (variant_t.ctor_decode K).1, (variant_t.ctor_decode K).2, ?_⟩
  rw [(variant_t.ctor_decode K).2]
  exact eq_comm

/-- A byte without a bit of the mask keeps its value when the mask bits are cleared. -/
theorem and_not_mask_eq_self {t m : Nat} (ht : t < 256) (h : t &&& m = 0) :
    t &&& (255 ^^^ m) = t := by
  apply Nat.eq_of_testBit_eq
  intro i
  have h2 := congrArg (fun n => Nat.testBit n i) h
  have h255 : Nat.testBit 255 i = decide (i < 8) := by
    have := @Nat.testBit_two_pow_sub_one 8 i
    simpa using this
  simp only [Nat.testBit_and, Nat.zero_testBit] at h2
  simp only [Nat.testBit_and, Nat.testBit_xor, h255]
  by_cases h8 : i < 8
  · cases hti : t.testBit i <;> cases hmi : m.testBit i <;> simp_all
  · have h8i : 8 ≤ i := by omega
    have ht8 : t < 2 ^ 8 := by simpa using ht
    have ht0 : t.testBit i = false :=
      Nat.testBit_lt_two_pow (lt_of_lt_of_le ht8 (Nat.pow_le_pow_right (by decide) h8i))
    simp [ht0]

/-- C12 fails as stated: at the two-top-bits header the record
`variant_t(1, 0)`, whose tag byte is `1`, has command none, and its
`GetType()` is `1`, not `ClientFSM::_none`. -/
theorem variant_t_none_command_counterexample :
    (variant_t.of_u32_u16 1 0).GetCommand client_fsm_types.two_top_bits = ClientFSM_Command_none ∧
      (variant_t.of_u32_u16 1 0).GetType client_fsm_types.two_top_bits = 1 ∧
      (variant_t.of_u32_u16 1 0).GetType client_fsm_types.two_top_bits ≠
        client_fsm_types.two_top_bits._none := by
  decide

/-- C12, amended. For every record `r` with `r.GetCommand()` none,
`r.GetType()` is the tag byte of `r`, whatever the payload bytes; so it is
`ClientFSM::_none` exactly when the tag byte is the value of `_none`. -/
theorem variant_t_none_command_type (K : client_fsm_types) (r : variant_t)
    (hbyte : r.type.command_and_type < 256) (hnone : r.GetCommand K = ClientFSM_Command_none) :
    r.GetType K = r.type.command_and_type ∧
      (r.GetType K = K._none ↔ r.type.command_and_type = K._none) ∧
      ∀ data : BaseData, (variant_t.mk r.type data).GetType K = r.GetType K := by
  have hm : K._mask % 256 < 256 := Nat.mod_lt _ (by decide)
  have hand : r.type.command_and_type &&& (K._mask % 256) = 0 := by
    have hlt : r.type.command_and_type &&& (K._mask % 256) < 256 :=
      lt_of_le_of_lt Nat.and_le_right hm
    simpa [variant_t.GetCommand, variant_t.create, type_t.GetCommand, ClientFSM_Command_none,
      Nat.mod_eq_of_lt hlt] using hnone
  have hty : r.GetType K = r.type.command_and_type := by
    simp only [variant_t.GetType, variant_t.create, type_t.GetType, Nat.mod_eq_of_lt hbyte,
      and_not_mask_eq_self hbyte hand]
  exact ⟨hty, by rw [hty], fun _ => rfl⟩

/-- The amended C12 at the two-top-bits header and the record of tag byte `1`. -/
theorem variant_t_none_command_type_witness :
    (variant_t.of_u32_u16 1 0).GetType client_fsm_types.two_top_bits = 1 :=
  (variant_t_none_command_type client_fsm_types.two_top_bits (variant_t.of_u32_u16 1 0)
    (by decide) (by decide)).1

/-- `type_t::operator==` holds exactly for equal tag bytes. -/
theorem type_t.eq_iff (t other : type_t) : t.eq other = true ↔ t = other := by
  cases t; cases other
  simp [type_t.eq]

/-- C13 fails as stated, in both directions, at the two-top-bits header: the
default record does not compare equal to itself, and the two `Destroy` records
of dialog 1 `variant_t(0x0041, 0)` and `variant_t(0x0941, 0)`, which differ in a
payload byte, compare equal. -/
theorem variant_t_eq_counterexample :
    variant_t.eq client_fsm_types.two_top_bits variant_t.ctor variant_t.ctor = false ∧
      (variant_t.of_u32_u16 0x0041 0).GetCommand client_fsm_types.two_top_bits =
        client_fsm_types.two_top_bits.destroy ∧
      (variant_t.of_u32_u16 0x0041 0).data ≠ (variant_t.of_u32_u16 0x0941 0).data ∧
      variant_t.eq client_fsm_types.two_top_bits (variant_t.of_u32_u16 0x0041 0)
        (variant_t.of_u32_u16 0x0941 0) = true := by
  decide

/-- `variant_t::operator==` read branch by branch. -/
theorem variant_t.eq_true_iff (K : client_fsm_types) (hK : K.Distinct) (a b : variant_t) :
    a.eq K b = true ↔
      a.type = b.type ∧
        ((a.GetCommand K = K.create ∧ a.data.b0 = b.data.b0) ∨
          a.GetCommand K = K.destroy ∨
          (a.GetCommand K = K.change ∧ a.data = b.data)) := by
  obtain ⟨_, _, _, hcd, hcc, hdc⟩ := hK
  have hcmd : a.type = b.type → a.GetCommand K = b.GetCommand K := by
    intro h
    simp only [variant_t.GetCommand, variant_t.create, h]
  unfold variant_t.eq
  split_ifs with h1 h2 h3 h4
  · simp only [Bool.false_eq_true, false_iff, not_and]
    intro ht
    exact absurd (hcmd ht) h1
  · simp only [create_t.eq, variant_t.create, Bool.and_eq_true, type_t.eq_iff, decide_eq_true_eq]
    constructor
    · rintro ⟨ht, hd⟩
      exact ⟨ht, Or.inl ⟨h2, hd⟩⟩
    · rintro ⟨ht, h | h | h⟩
      · exact ⟨ht, h.2⟩
      · exact absurd (h2.symm.trans h) hcd
      · exact absurd (h2.symm.trans h.1) hcc
  · simp only [destroy_t.eq, variant_t.destroy, type_t.eq_iff]
    constructor
    · intro ht
      exact ⟨ht, Or.inr (Or.inl h3)⟩
    · rintro ⟨ht, _⟩
      exact ht
  · simp only [change_t.eq, variant_t.change, Bool.and_eq_true, type_t.eq_iff, decide_eq_true_eq]
    constructor
    · rintro ⟨ht, hd⟩
      exact ⟨ht, Or.inr (Or.inr ⟨h4, hd⟩)⟩
    · rintro ⟨ht, h | h | h⟩
      · exact absurd h.1 h2
      · exact absurd h h3
      · exact ⟨ht, h.2⟩
  · simp only [Bool.false_eq_true, false_iff, not_and]
    rintro _ (h | h | h)
    · exact h2 h.1
    · exact h3 h
    · exact h4 h.1

/-- C13, amended. For all records `a` and `b`, `a == b` holds if and only if
their tag bytes are equal, the command of the tag is create, destroy or change,
and the member of that command agrees: for create the first payload byte
(`create.data`), for destroy nothing more, for change every payload byte. -/
theorem variant_t_eq_iff (K : client_fsm_types) (hK : K.Distinct) (a b : variant_t) :
    a.eq K b = true ↔
      a.type = b.type ∧
        ((a.GetCommand K = K.create ∧ a.data.b0 = b.data.b0) ∨
          a.GetCommand K = K.destroy ∨
          (a.GetCommand K = K.change ∧ a.data = b.data)) :=
  variant_t.eq_true_iff K hK a b

/-- The amended C13 at the two-top-bits header and the `Create` record
`variant_t(0x0781, 0)` compared with itself. -/
theorem variant_t_eq_iff_witness :
    variant_t.eq client_fsm_types.two_top_bits (variant_t.of_u32_u16 0x0781 0)
        (variant_t.of_u32_u16 0x0781 0) = true ↔
      (variant_t.of_u32_u16 0x0781 0).type = (variant_t.of_u32_u16 0x0781 0).type ∧
        (((variant_t.of_u32_u16 0x0781 0).GetCommand client_fsm_types.two_top_bits =
            client_fsm_types.two_top_bits.create ∧
            (variant_t.of_u32_u16 0x0781 0).data.b0 = (variant_t.of_u32_u16 0x0781 0).data.b0) ∨
          (variant_t.of_u32_u16 0x0781 0).GetCommand client_fsm_types.two_top_bits =
            client_fsm_types.two_top_bits.destroy ∨
          ((variant_t.of_u32_u16 0x0781 0).GetCommand client_fsm_types.two_top_bits =
            client_fsm_types.two_top_bits.change ∧
            (variant_t.of_u32_u16 0x0781 0).data = (variant_t.of_u32_u16 0x0781 0).data)) :=
  variant_t_eq_iff client_fsm_types.two_top_bits (by decide) (variant_t.of_u32_u16 0x0781 0)
    (variant_t.of_u32_u16 0x0781 0)

/-- C14. For all dialogs `d1`, `d2` and payload blocks `p1`, `p2`, the records
`variant_t(change_t(d1, p1))` and `variant_t(change_t(d2, p2))` compare equal
if and only if their tag bytes are equal and `p1 = p2`. -/
theorem variant_t_change_eq_iff (K : client_fsm_types) (hK : K.WellFormed) (d1 d2 : Nat)
    (p1 p2 : BaseData) (hd1 : K.ValidType d1) :
    (variant_t.of_change (change_t.ctor K d1 p1)).eq K (variant_t.of_change (change_t.ctor K d2 p2)) =
        true ↔
      (variant_t.of_change (change_t.ctor K d1 p1)).type =
          (variant_t.of_change (change_t.ctor K d2 p2)).type ∧
        p1 = p2 := by
  have h1 := variant_t.GetCommand_of_change K hK.1 hd1 p1
  obtain ⟨_, _, _, _, hcc, hdc⟩ := hK.2
  rw [variant_t.eq_true_iff K hK.2, h1]
  simp [Ne.symm hcc, Ne.symm hdc, variant_t.of_change, change_t.ctor]

/-- C14 at the two-top-bits header: a `Change` record of dialog 1 compared
with itself. -/
theorem variant_t_change_eq_iff_witness :
    (variant_t.of_change (change_t.ctor client_fsm_types.two_top_bits 1 ⟨3, 0, 0, 0, 0⟩)).eq
        client_fsm_types.two_top_bits
        (variant_t.of_change (change_t.ctor client_fsm_types.two_top_bits 1 ⟨3, 0, 0, 0, 0⟩)) = true :=
  (variant_t_change_eq_iff client_fsm_types.two_top_bits (by decide) 1 1 ⟨3, 0, 0, 0, 0⟩
    ⟨3, 0, 0, 0, 0⟩ (by decide)).mpr ⟨rfl, rfl⟩

/-- C15. For every queue state, `Front()` returns slot 0, the oldest pending
record, when `GetCount() > 0`, and the None-tagged empty record when
`GetCount() = 0`. `Front` is declared `const`: it is a function of the state
and yields no new state, so slots, count and opened identity stay. -/
theorem Queue_Front_oldest_or_none (K : client_fsm_types) (q : Queue) :
    (0 < q.GetCount → q.Front = q.queue.get 0 ∧ q.pending.head? = some q.Front) ∧
      (q.GetCount = 0 → q.Front = variant_t.ctor ∧ q.Front.GetCommand K = ClientFSM_Command_none) := by
  obtain ⟨⟨a0, a1, a2⟩, n, o⟩ := q
  simp only [Queue.GetCount]
  constructor
  · intro hn
    have h0 : n ≠ 0 := by omega
    obtain ⟨m, rfl⟩ := Nat.exists_eq_succ_of_ne_zero h0
    simp [Queue.Front, Queue.pending, array3.toList, array3.get]
  · intro hn
    subst hn
    simp [Queue.Front, variant_t.GetCommand, variant_t.create, variant_t.ctor, type_t.GetCommand,
      ClientFSM_Command_none]

/-- C15 at the two-top-bits header: the queue after one create, and the
constructed queue. -/
theorem Queue_Front_oldest_or_none_witness :
    ((Queue.ctor client_fsm_types.two_top_bits).PushCreate client_fsm_types.two_top_bits 1 7).1.Front =
        ((Queue.ctor client_fsm_types.two_top_bits).PushCreate
          client_fsm_types.two_top_bits 1 7).1.queue.get 0 ∧
      (Queue.ctor client_fsm_types.two_top_bits).Front = variant_t.ctor :=
  ⟨((Queue_Front_oldest_or_none client_fsm_types.two_top_bits
      ((Queue.ctor client_fsm_types.two_top_bits).PushCreate client_fsm_types.two_top_bits 1 7).1).1
      (by decide)).1,
    ((Queue_Front_oldest_or_none client_fsm_types.two_top_bits
      (Queue.ctor client_fsm_types.two_top_bits)).2 (by decide)).1⟩

/-- C16. For every queue state with at most three occupied slots,
`GetCreateIndex()` returns -1 if and only if none of the first `GetCount()`
slots holds a `Create` record; otherwise it returns an index `i` with
`0 <= i < GetCount()` such that slot `i` holds a `Create` record. -/
theorem Queue_GetCreateIndex_spec (K : client_fsm_types) (q : Queue) (hcount : q.GetCount ≤ 3) :
    (q.GetCreateIndex K = -1 ↔ ∀ i, i < q.GetCount → (q.queue.get i).GetCommand K ≠ K.create) ∧
      (q.GetCreateIndex K ≠ -1 →
        0 ≤ q.GetCreateIndex K ∧ q.GetCreateIndex K < q.GetCount ∧
          (q.queue.get (q.GetCreateIndex K).toNat).GetCommand K = K.create) := by
  obtain ⟨⟨a0, a1, a2⟩, n, o⟩ := q
  simp only [Queue.GetCount] at hcount ⊢
  have hall : ∀ P : Nat → Prop, (∀ i, i < n → P i) ↔
      ((0 < n → P 0) ∧ (1 < n → P 1) ∧ (2 < n → P 2)) := by
    intro P
    constructor
    · intro h
      exact ⟨h 0, h 1, h 2⟩
    · rintro ⟨h0, h1, h2⟩ i hi
      have : i = 0 ∨ i = 1 ∨ i = 2 := by omega
      rcases this with rfl | rfl | rfl
      · exact h0 hi
      · exact h1 hi
      · exact h2 hi
  rw [hall]
  simp only [Queue.GetCreateIndex, array3.get]
  interval_cases n <;> split_ifs <;> simp_all

/-- C16 at the two-top-bits header: after one create the index is that of a
`Create` record. -/
theorem Queue_GetCreateIndex_spec_witness :
    ((Queue.ctor client_fsm_types.two_top_bits).PushCreate client_fsm_types.two_top_bits 1 7).1.GetCreateIndex
        client_fsm_types.two_top_bits ≠ -1 ∧
      (((Queue.ctor client_fsm_types.two_top_bits).PushCreate client_fsm_types.two_top_bits 1 7).1.queue.get
        (((Queue.ctor client_fsm_types.two_top_bits).PushCreate
          client_fsm_types.two_top_bits 1 7).1.GetCreateIndex
            client_fsm_types.two_top_bits).toNat).GetCommand client_fsm_types.two_top_bits =
        client_fsm_types.two_top_bits.create :=
  ⟨by decide,
    ((Queue_GetCreateIndex_spec client_fsm_types.two_top_bits
      ((Queue.ctor client_fsm_types.two_top_bits).PushCreate client_fsm_types.two_top_bits 1 7).1
      (by decide)).2 (by decide)).2.2⟩

/-- C17. For every queue state, after `Clear()` no record is pending,
`GetCount()` is 0 and `GetCreateIndex()` is -1, and `GetOpenFsm()` returns the
same identity as before the call. -/
theorem Queue_Clear_drops_all_keeps_opened (K : client_fsm_types) (q : Queue) :
    q.Clear.GetCount = 0 ∧ q.Clear.pending = [] ∧ q.Clear.GetCreateIndex K = -1 ∧
      q.Clear.GetOpenFsm = q.GetOpenFsm := by
  simp [Queue.Clear, Queue.GetCount, Queue.pending, Queue.GetCreateIndex, Queue.GetOpenFsm]

/-- C18. For every queue state with `GetCount() = 0`, `Clear()` leaves the
whole state unchanged (it returns `void`, there is no error to report); and
for every state `Clear()` followed by `Clear()` yields the same state as a
single `Clear()`. -/
theorem Queue_Clear_idempotent (q : Queue) :
    (q.GetCount = 0 → q.Clear = q) ∧ q.Clear.Clear = q.Clear := by
  constructor
  · intro h
    obtain ⟨a, n, o⟩ := q
    simp only [Queue.GetCount] at h
    subst h
    rfl
  · rfl

/-- C18 at the constructed queue of the two-top-bits header. -/
theorem Queue_Clear_idempotent_witness :
    (Queue.ctor client_fsm_types.two_top_bits).Clear = Queue.ctor client_fsm_types.two_top_bits :=
  (Queue_Clear_idempotent (Queue.ctor client_fsm_types.two_top_bits)).1 (by decide)

/-- C19. For every queue state with `GetCount() = n > 0`, `Clear_last()`
drops only the newest record: the count becomes `n - 1`, the first `n - 1`
slots and the opened identity are unchanged and, with at most three occupied
slots, the pending records are the former ones without the last; with `n = 0`
it changes nothing. -/
theorem Queue_Clear_last_drops_newest (q : Queue) :
    (0 < q.GetCount →
        q.Clear_last.GetCount = q.GetCount - 1 ∧
          (∀ i, i < q.GetCount - 1 → q.Clear_last.queue.get i = q.queue.get i) ∧
          q.Clear_last.GetOpenFsm = q.GetOpenFsm ∧
          (q.GetCount ≤ 3 → q.Clear_last.pending = q.pending.dropLast)) ∧
      (q.GetCount = 0 → q.Clear_last = q) := by
  obtain ⟨⟨a0, a1, a2⟩, n, o⟩ := q
  simp only [Queue.GetCount, Queue.GetOpenFsm]
  constructor
  · intro hn
    have h0 : n ≠ 0 := by omega
    refine ⟨by simp [Queue.Clear_last, h0], by simp [Queue.Clear_last, h0],
      by simp [Queue.Clear_last, h0], ?_⟩
    intro h3
    interval_cases n <;> simp [Queue.Clear_last, Queue.pending, array3.toList]
  · intro hn
    subst hn
    simp [Queue.Clear_last]

/-- C19 at the two-top-bits header: the queue after one create, and the
constructed queue. -/
theorem Queue_Clear_last_drops_newest_witness :
    ((Queue.ctor client_fsm_types.two_top_bits).PushCreate client_fsm_types.two_top_bits 1 7).1.Clear_last.GetCount =
        ((Queue.ctor client_fsm_types.two_top_bits).PushCreate
          client_fsm_types.two_top_bits 1 7).1.GetCount - 1 ∧
      (Queue.ctor client_fsm_types.two_top_bits).Clear_last = Queue.ctor client_fsm_types.two_top_bits :=
  ⟨((Queue_Clear_last_drops_newest
      ((Queue.ctor client_fsm_types.two_top_bits).PushCreate client_fsm_types.two_top_bits 1 7).1).1
      (by decide)).1,
    (Queue_Clear_last_drops_newest (Queue.ctor client_fsm_types.two_top_bits)).2 (by decide)⟩

/-- C20. For every queue state and every byte `x`,
`PushCreate(ClientFSM::_none, x)` fails with `er_type_none` and leaves the
state unchanged. -/
theorem Queue_PushCreate_none_er_type_none (K : client_fsm_types) (q : Queue) (x : Nat) :
    q.PushCreate K K._none x = (q, ret_val.er_type_none) := by
  simp [Queue.PushCreate]

/-- C22. `variant_t` equality is not reflexive on empty records: for every
record `a` with `a.GetCommand()` none and every record `b`, `a == b` is false
and `a != b` is true; in particular `variant_t() == variant_t()` is false. -/
theorem variant_t_eq_none_false (K : client_fsm_types) (hc : K.create ≠ 0) (hd : K.destroy ≠ 0)
    (hch : K.change ≠ 0) (a b : variant_t) (hnone : a.GetCommand K = ClientFSM_Command_none) :
    a.eq K b = false ∧ a.ne K b = true ∧ variant_t.ctor.eq K variant_t.ctor = false := by
  have key : ∀ x y : variant_t, x.GetCommand K = 0 → x.eq K y = false := by
    intro x y hx
    unfold variant_t.eq
    rw [hx]
    split_ifs with h1 h2 h3 h4
    · rfl
    · exact absurd h2.symm hc
    · exact absurd h3.symm hd
    · exact absurd h4.symm hch
    · rfl
  have ha := key a b hnone
  exact ⟨ha, by simp [variant_t.ne, ha], key _ _ (variant_t.ctor_decode K).1⟩

/-- C22 at the two-top-bits header and the record of tag byte `1`, compared
with itself. -/
theorem variant_t_eq_none_false_witness :
    variant_t.eq client_fsm_types.two_top_bits (variant_t.of_u32_u16 1 0) (variant_t.of_u32_u16 1 0) =
        false ∧
      variant_t.ne client_fsm_types.two_top_bits (variant_t.of_u32_u16 1 0)
        (variant_t.of_u32_u16 1 0) = true ∧
      variant_t.eq client_fsm_types.two_top_bits variant_t.ctor variant_t.ctor = false :=
  variant_t_eq_none_false client_fsm_types.two_top_bits (by decide) (by decide) (by decide)
    (variant_t.of_u32_u16 1 0) (variant_t.of_u32_u16 1 0) (by decide)

/-- C23. For every queue state with at most three occupied slots in which one
or several of the first `GetCount()` slots hold a `Create` record,
`GetCreateIndex()` returns the largest such index: no `Create` index is
larger, the slot at the result holds a `Create` and no slot above it does.
For every state the result lies in {-1, 0, 1, 2} and is less than
`GetCount()`. -/
theorem Queue_GetCreateIndex_largest (K : client_fsm_types) (q : Queue) :
    (q.GetCount ≤ 3 →
        ∀ i, i < q.GetCount → (q.queue.get i).GetCommand K = K.create →
          (i : Int) ≤ q.GetCreateIndex K ∧
            (q.queue.get (q.GetCreateIndex K).toNat).GetCommand K = K.create ∧
            ∀ j : Nat, q.GetCreateIndex K < (j : Int) → j < q.GetCount →
              (q.queue.get j).GetCommand K ≠ K.create) ∧
      (q.GetCreateIndex K = -1 ∨ q.GetCreateIndex K = 0 ∨ q.GetCreateIndex K = 1 ∨
        q.GetCreateIndex K = 2) ∧
      q.GetCreateIndex K < q.GetCount := by
  obtain ⟨⟨a0, a1, a2⟩, n, o⟩ := q
  simp only [Queue.GetCount]
  refine ⟨?_, ?_, ?_⟩
  · intro hn i hi hc
    have hi3 : i < 3 := by omega
    simp only [Queue.GetCreateIndex]
    split_ifs with h2 h1 h0
    · refine ⟨by omega, by simpa [array3.get] using h2.2, ?_⟩
      intro j hj hjn
      omega
    · refine ⟨?_, by simpa [array3.get] using h1.2, ?_⟩
      · interval_cases i
        · decide
        · decide
        · exact absurd ⟨by omega, hc⟩ h2
      · intro j hj hjn
        have hj2 : j = 2 := by omega
        subst hj2
        exact fun h => h2 ⟨by omega, h⟩
    · refine ⟨?_, by simpa [array3.get] using h0.2, ?_⟩
      · interval_cases i
        · decide
        · exact absurd ⟨by omega, hc⟩ h1
        · exact absurd ⟨by omega, hc⟩ h2
      · intro j hj hjn
        have hj12 : j = 1 ∨ j = 2 := by omega
        rcases hj12 with rfl | rfl
        · exact fun h => h1 ⟨by omega, h⟩
        · exact fun h => h2 ⟨by omega, h⟩
    · exfalso
      interval_cases i
      · exact h0 ⟨by omega, hc⟩
      · exact h1 ⟨by omega, hc⟩
      · exact h2 ⟨by omega, hc⟩
  · simp only [Queue.GetCreateIndex]
    split_ifs <;> simp
  · simp only [Queue.GetCreateIndex]
    split_ifs with h1 h2 h3
    · have := h1.1; omega
    · have := h2.1; omega
    · have := h3.1; omega
    · omega

/-- C23 at the two-top-bits header: with the `Create` records of dialogs 1 and
2 in slots 0 and 1 the result is at least 1, and below the count. -/
theorem Queue_GetCreateIndex_largest_witness :
    ((1 : Nat) : Int) ≤
        Queue.GetCreateIndex client_fsm_types.two_top_bits
          { queue := ⟨variant_t.of_create (create_t.ctor client_fsm_types.two_top_bits 1 0),
                      variant_t.of_create (create_t.ctor client_fsm_types.two_top_bits 2 0),
                      variant_t.ctor⟩,
            count := 2, opened_fsm := 2 } ∧
      Queue.GetCreateIndex client_fsm_types.two_top_bits
          { queue := ⟨variant_t.of_create (create_t.ctor client_fsm_types.two_top_bits 1 0),
                      variant_t.of_create (create_t.ctor client_fsm_types.two_top_bits 2 0),
                      variant_t.ctor⟩,
            count := 2, opened_fsm := 2 } <
        Queue.GetCount
          { queue := ⟨variant_t.of_create (create_t.ctor client_fsm_types.two_top_bits 1 0),
                      variant_t.of_create (create_t.ctor client_fsm_types.two_top_bits 2 0),
                      variant_t.ctor⟩,
            count := 2, opened_fsm := 2 } :=
  ⟨((Queue_GetCreateIndex_largest client_fsm_types.two_top_bits
      { queue := ⟨variant_t.of_create (create_t.ctor client_fsm_types.two_top_bits 1 0),
                  variant_t.of_create (create_t.ctor client_fsm_types.two_top_bits 2 0),
                  variant_t.ctor⟩,
        count := 2, opened_fsm := 2 }).1 (by decide) 1 (by decide) (by decide)).1,
    (Queue_GetCreateIndex_largest client_fsm_types.two_top_bits
      { queue := ⟨variant_t.of_create (create_t.ctor client_fsm_types.two_top_bits 1 0),
                  variant_t.of_create (create_t.ctor client_fsm_types.two_top_bits 2 0),
                  variant_t.ctor⟩,
        count := 2, opened_fsm := 2 }).2.2⟩

end fsm

namespace GcodeSuite

/-- C21 fails as stated: with `always_home_all` set and the one letter `X`
given, all three axes are selected, not only the named one. -/
theorem G28_axes_counterexample :
    (G28_no_parser_axes true true false false).doX = true ∧
      (G28_no_parser_axes true true false false).doY = true ∧
      (G28_no_parser_axes true true false false).doZ = true := by
  decide

/-- C21, amended. In the build without `DELTA`, for every combination of the
flags `always_home_all`, `X`, `Y`, `Z`: `doX` holds if and only if
`always_home_all` is set, or `X` is set, or `X`, `Y` and `Z` are all equal, and
likewise `doY` and `doZ`; so with no axis letter all three axes are selected,
with `always_home_all` set all three are selected whatever the letters, and
with exactly one or two letters and `always_home_all` not set exactly the
named axes are selected. -/
theorem G28_axes_selection (always_home_all X Y Z : Bool) :
    ((G28_no_parser_axes always_home_all X Y Z).doX = true ↔
        always_home_all = true ∨ X = true ∨ (X = Y ∧ X = Z)) ∧
      ((G28_no_parser_axes always_home_all X Y Z).doY = true ↔
        always_home_all = true ∨ Y = true ∨ (X = Y ∧ X = Z)) ∧
      ((G28_no_parser_axes always_home_all X Y Z).doZ = true ↔
        always_home_all = true ∨ Z = true ∨ (X = Y ∧ X = Z)) ∧
      (X = false ∧ Y = false ∧ Z = false →
        G28_no_parser_axes always_home_all X Y Z = ⟨true, true, true⟩) ∧
      (always_home_all = false → ¬ (X = Y ∧ X = Z) →
        G28_no_parser_axes always_home_all X Y Z = ⟨X, Y, Z⟩) ∧
      (always_home_all = true → G28_no_parser_axes always_home_all X Y Z = ⟨true, true, true⟩) := by
  cases always_home_all <;> cases X <;> cases Y <;> cases Z <;> decide

/-- The amended C21 at `G28 X` and at `G28` without letters, `always_home_all`
not set. -/
theorem G28_axes_selection_witness :
    G28_no_parser_axes false true false false = ⟨true, false, false⟩ ∧
      G28_no_parser_axes false false false false = ⟨true, true, true⟩ :=
  ⟨(G28_axes_selection false true false false).2.2.2.2.1 (by decide) (by decide),
    (G28_axes_selection false false false false).2.2.2.1 (by decide)⟩

end GcodeSuite

namespace connect_client

/-- The lengths of the two fixed strings and the smallest buffer. -/
theorem lengths : intro_len = 11 ∧ outro_len = 2 ∧ min_len = 14 := by
  decide

/-- Subtracting a smaller `size_t` does not wrap. -/
theorem size_t_sub_eq {a b : Nat} (ha : a < 2 ^ 32) (hb : b ≤ a) : size_t_sub a b = a - b := by
  unfold size_t_sub size_t_values
  omega

/-- Adding two `size_t` with a sum below `2 ^ 32` does not wrap. -/
theorem size_t_add_eq {a b : Nat} (h : a + b < 2 ^ 32) : size_t_add a b = a + b := by
  unfold size_t_add size_t_values
  omega

/-- C24. For every `buffer_size` (a `size_t`) and every value of `started`,
when `decoder.Read(buf, n)` returns at most `n`, the written count `render`
reports never exceeds `buffer_size`: below 14 bytes it returns
`(BufferTooSmall, 0)` and leaves `started`; from 14 bytes on `available` is
positive, it returns `(Complete, 0)` and leaves `started` when nothing is
decoded before the preview has started, and otherwise it sets `started` and
reports 11 (only on the first chunk) + decoded + 2 (only when
`decoded < available`), with `Complete` exactly when `decoded < available`. -/
theorem PreviewRenderer_render_written_le (Read : Nat → Nat) (self : PreviewRenderer)
    (buffer_size : Nat) (hsize : buffer_size < 2 ^ 32) (hRead : ∀ n, Read n ≤ n) :
    (self.render Read buffer_size).1.2 ≤ buffer_size ∧
      (buffer_size < 14 → self.render Read buffer_size = ((JsonResult.BufferTooSmall, 0), self)) ∧
      (14 ≤ buffer_size →
        0 < buffer_size - (if self.started then 0 else 11) - 2 ∧
        (Read (buffer_size - (if self.started then 0 else 11) - 2) = 0 ∧ self.started = false →
          self.render Read buffer_size = ((JsonResult.Complete, 0), self)) ∧
        (¬ (Read (buffer_size - (if self.started then 0 else 11) - 2) = 0 ∧ self.started = false) →
          self.render Read buffer_size =
            ((if Read (buffer_size - (if self.started then 0 else 11) - 2) <
                  buffer_size - (if self.started then 0 else 11) - 2
                then JsonResult.Complete else JsonResult.Incomplete,
              (if self.started then 0 else 11) +
                Read (buffer_size - (if self.started then 0 else 11) - 2) +
                (if Read (buffer_size - (if self.started then 0 else 11) - 2) <
                    buffer_size - (if self.started then 0 else 11) - 2
                  then 2 else 0)),
              { started := true }))) := by
  obtain ⟨h11, h2, h14⟩ := lengths
  obtain ⟨started⟩ := self
  cases started
  · -- first chunk
    by_cases hsmall : buffer_size < 14
    · simp [PreviewRenderer.render, h14, hsmall]
    · have hge : 14 ≤ buffer_size := by omega
      have hs1 : size_t_sub buffer_size 11 = buffer_size - 11 := size_t_sub_eq hsize (by omega)
      have hs2 : size_t_sub (buffer_size - 11) 2 = buffer_size - 11 - 2 :=
        size_t_sub_eq (by omega) (by omega)
      have hr := hRead (buffer_size - 11 - 2)
      have ha0 : size_t_add 0 11 = 11 := size_t_add_eq (by omega)
      have ha1 : size_t_add 11 (Read (buffer_size - 11 - 2)) = 11 + Read (buffer_size - 11 - 2) :=
        size_t_add_eq (by omega)
      have ha2 : size_t_add (11 + Read (buffer_size - 11 - 2)) 2 =
          11 + Read (buffer_size - 11 - 2) + 2 := size_t_add_eq (by omega)
      simp only [PreviewRenderer.render, h14, h11, h2, hsmall, if_false, Bool.not_false, if_true,
        hs1, hs2, ha0, ha1, ha2, Bool.false_eq_true, and_true]
      by_cases hz : Read (buffer_size - 11 - 2) = 0
      · simp [hz]
        omega
      · by_cases hlt : Read (buffer_size - 11 - 2) < buffer_size - 11 - 2
        · simp [hz, hlt]
          omega
        · simp [hz, hlt]
          omega
  · -- later chunk
    by_cases hsmall : buffer_size < 14
    · simp [PreviewRenderer.render, h14, hsmall]
    · have hge : 14 ≤ buffer_size := by omega
      have hs2 : size_t_sub buffer_size 2 = buffer_size - 2 := size_t_sub_eq hsize (by omega)
      have hr := hRead (buffer_size - 2)
      have ha1 : size_t_add 0 (Read (buffer_size - 2)) = Read (buffer_size - 2) := by
        rw [size_t_add_eq (by omega)]; omega
      have ha2 : size_t_add (Read (buffer_size - 2)) 2 = Read (buffer_size - 2) + 2 :=
        size_t_add_eq (by omega)
      simp only [PreviewRenderer.render, h14, h2, hsmall, if_false, Bool.not_true, if_true,
        hs2, ha1, ha2, Bool.false_eq_true, and_false]
      by_cases hlt : Read (buffer_size - 2) < buffer_size - 2
      · simp [hlt]
        omega
      · simp [hlt]
        omega

/-- C24 with a decoder that delivers at most five bytes, a buffer of 20 bytes
and the preview not started: 11 + 5 + 2 bytes are reported. -/
theorem PreviewRenderer_render_written_le_witness :
    (PreviewRenderer.render (fun n => min n 5) { started := false } 20).1.2 ≤ 20 ∧
      PreviewRenderer.render (fun n => min n 5) { started := false } 20 =
        ((JsonResult.Complete, 18), { started := true }) :=
  ⟨(PreviewRenderer_render_written_le (fun n => min n 5) { started := false } 20 (by decide)
      (fun n => Nat.min_le_left n 5)).1,
    by decide⟩

end connect_client
